import Mathlib

/-!
Shallow embedding of the Dimension2Network core
(`src/Dimension2Network/Dimension2Network.py` and
`src/Dimension2Network/graph_elements.py`): dimensions, rules, graph
storage, node/link construction, merge, mutation and projection, together
with theorems settling the specified properties.

Python `dict` objects (insertion-ordered, unique keys, in-place overwrite)
are embedded as ordered association lists with the `dict*` primitives
below. Python methods that may `raise` are embedded as functions returning
the mutated state together with `Option String`: `none` on normal return,
`some msg` when the exception propagates (the state component then holds
exactly the mutations performed before the raise, matching Python object
mutation semantics).
-/

set_option maxHeartbeats 1000000

/-- Python `d[k]` as an option: the value at key `k`, if present. -/
def dictGet {α : Type} (d : List (String × α)) (k : String) : Option α :=
  (d.find? (fun p => p.1 == k)).map (fun p => p.2)

/-- Python `k in d`. -/
def dictHas {α : Type} (d : List (String × α)) (k : String) : Bool :=
  d.any (fun p => p.1 == k)

/-- Python `d[k] = v`: overwrite in place when the key exists (keeping its
position, as Python dicts do), otherwise append at the end. -/
def dictSet {α : Type} : List (String × α) → String → α → List (String × α)
  | [], k, v => [(k, v)]
  | p :: rest, k, v => if p.1 == k then (k, v) :: rest else p :: dictSet rest k v

/-- Python `del d[k]`. -/
def dictErase {α : Type} (d : List (String × α)) (k : String) : List (String × α) :=
  d.filter (fun p => p.1 != k)

/-- Python `list(d.keys())`. -/
def dictKeys {α : Type} (d : List (String × α)) : List String :=
  d.map Prod.fst

/-- Python `list(d.values())`. -/
def dictValues {α : Type} (d : List (String × α)) : List α :=
  d.map Prod.snd

/-- A Python dict comprehension `{k: v for (k, v) in l}`: later pairs with
an already-seen key overwrite the earlier value in place. -/
def dictOfPairs {α : Type} (l : List (String × α)) : List (String × α) :=
  l.foldl (fun acc p => dictSet acc p.1 p.2) []

/-- `Rule` (Dimension2Network.py): a subrule scoped to a list of dimension
ids with a validation predicate. The Python variadic call
`rule_function(*src_values, *tgt_values)` is embedded as a function of the
two extracted value lists. -/
structure Rule where
  dimensions : List String
  rule_function : List String → List String → Bool

/-- `Rule.validate`: false unless every rule dimension is in the context
list; otherwise extract the rule-dimension values of both nodes (in rule
dimension order) and apply the predicate. The Python subscript
`dic[dim]` is embedded as lookup with a junk default (the subscript is
only reached on keys present in intended use). -/
def Rule.validate (r : Rule) (dimensions_id_list : List String)
    (dim_values_Dic_1 dim_values_Dic_2 : List (String × String)) : Bool :=
  if r.dimensions.all (fun dim => dimensions_id_list.contains dim) then
    r.rule_function
      (r.dimensions.map (fun dim => (dictGet dim_values_Dic_1 dim).getD ""))
      (r.dimensions.map (fun dim => (dictGet dim_values_Dic_2 dim).getD ""))
  else
    false

/-- `NetworkRule` (Dimension2Network.py): a composite rule, a named group
of subrules. -/
structure NetworkRule where
  rule_id : String
  dimensions : List String
  rules : List Rule

/-- `NetworkRule.validate`: OR over the subrules (`any`). -/
def NetworkRule.validate (nr : NetworkRule) (dimensions_id_list : List String)
    (dim_values_Dic_1 dim_values_Dic_2 : List (String × String)) : Bool :=
  nr.rules.any (fun r => r.validate dimensions_id_list dim_values_Dic_1 dim_values_Dic_2)

/-- `NetworkRuleManager` (Dimension2Network.py): a dict of composite link
rules keyed by rule id. -/
structure NetworkRuleManager where
  manager_id : String
  link_rules : List (String × NetworkRule)

/-- `NetworkRuleManager.validate_link`: AND over the managed composites
(`all` over `link_rules.values()`). -/
def NetworkRuleManager.validate_link (m : NetworkRuleManager) (dimensions_id_list : List String)
    (dim_values_Dic_1 dim_values_Dic_2 : List (String × String)) : Bool :=
  m.link_rules.all (fun p => p.2.validate dimensions_id_list dim_values_Dic_1 dim_values_Dic_2)

/-- `NetworkRuleManager.add_link_rule`: insertion fails on duplicate id. -/
def NetworkRuleManager.add_link_rule (m : NetworkRuleManager) (rule : NetworkRule) :
    NetworkRuleManager × Option String :=
  if dictHas m.link_rules rule.rule_id then
    (m, some "Link rule with this ID already exists.")
  else
    ({ m with link_rules := dictSet m.link_rules rule.rule_id rule }, none)

theorem dictGet_nil {α : Type} (k : String) : dictGet ([] : List (String × α)) k = none := rfl

theorem dictGet_cons {α : Type} (p : String × α) (d : List (String × α)) (k : String) :
    dictGet (p :: d) k = if p.1 = k then some p.2 else dictGet d k := by
  simp only [dictGet, List.find?]
  by_cases h : p.1 = k
  · simp [h]
  · simp [h, beq_eq_false_iff_ne.2 h]

theorem dictHas_iff_mem_keys {α : Type} (d : List (String × α)) (k : String) :
    dictHas d k = true ↔ k ∈ dictKeys d := by
  simp only [dictHas, dictKeys, List.any_eq_true, List.mem_map]
  constructor
  · rintro ⟨p, hp, he⟩
    exact ⟨p, hp, beq_iff_eq.1 he⟩
  · rintro ⟨p, hp, he⟩
    exact ⟨p, hp, beq_iff_eq.2 he⟩

theorem dictGet_isSome_iff {α : Type} (d : List (String × α)) (k : String) :
    (dictGet d k).isSome = true ↔ k ∈ dictKeys d := by
  induction d with
  | nil => simp [dictGet, dictKeys]
  | cons p rest ih =>
    rw [dictGet_cons]
    by_cases h : p.1 = k
    · simp [h, dictKeys]
    · simp only [if_neg h, dictKeys, List.map_cons, List.mem_cons]
      rw [ih]
      simp only [dictKeys]
      constructor
      · exact Or.inr
      · rintro (he | hm)
        · exact absurd he.symm h
        · exact hm

/-- A Python attribute value as it occurs in this codebase (strings and
integers, e.g. `node_type` and `dimension_count`). -/
inductive PyVal where
  | str : String → PyVal
  | int : Int → PyVal
deriving DecidableEq, Repr

/-- `Node` (graph_elements.py): id, dimension name list, value dict and
coordinate dict (the derived `dim_values` / `coordinates` tuples, used only
by `to_dict`/`__repr__`, are not stored). -/
structure Node where
  node_id : String
  dim_list : List String
  dim_values_dic : List (String × String)
  coordinates_dic : List (String × Int)
  attributes : List (String × PyVal)
deriving DecidableEq, Repr

/-- Two string lists with equal underlying sets (Python `set(a) == set(b)`). -/
def setEq (a b : List String) : Bool :=
  a.all (fun x => b.contains x) && b.all (fun x => a.contains x)

/-- `Node.__init__`: fails unless `dim_list` matches the key sets of both
dictionaries. -/
def mkNode (node_id : String) (dim_list : List String)
    (dim_values_dic : List (String × String)) (coordinates_dic : List (String × Int))
    (attributes : List (String × PyVal)) : Except String Node :=
  if ¬ setEq dim_list (dictKeys dim_values_dic) then
    .error "Dimension names in dim_list must match keys in dim_values_dic."
  else if ¬ setEq dim_list (dictKeys coordinates_dic) then
    .error "Dimension names in dim_list must match keys in coordinates_dic."
  else
    .ok ⟨node_id, dim_list, dim_values_dic, coordinates_dic, attributes⟩

/-- `Node.get_coords_value`: `coordinates_dic.get(dimension, None)`. -/
def Node.get_coords_value (n : Node) (dimension : String) : Option Int :=
  dictGet n.coordinates_dic dimension

/-- `Link` (graph_elements.py). -/
structure Link where
  link_id : String
  source : String
  target : String
  attributes : List (String × PyVal)
deriving DecidableEq, Repr

/-- `Graph` (graph_elements.py): node and link stores keyed by id. -/
structure Graph where
  network_id : String
  dimension_id_list : List String
  nodes : List (String × Node)
  links : List (String × Link)
deriving DecidableEq, Repr

/-- `Graph.add_node`: raises when the node id is already present, else
stores the node under its id. -/
def Graph.add_node (g : Graph) (node : Node) : Graph × Option String :=
  if dictHas g.nodes node.node_id then
    (g, some "Node already exists.")
  else
    ({ g with nodes := dictSet g.nodes node.node_id node }, none)

/-- `Graph.add_link`: raises when either endpoint is missing, else stores
the link under its id (no duplicate-id check: an existing id is
overwritten in place). -/
def Graph.add_link (g : Graph) (link : Link) : Graph × Option String :=
  if dictHas g.nodes link.source && dictHas g.nodes link.target then
    ({ g with links := dictSet g.links link.link_id link }, none)
  else
    (g, some "Both source and target nodes must exist in the graph.")

/-- `Dimension` (Dimension2Network.py): id, ordered value list and the
generated value→coordinate dict. Coordinates are embedded as integers
(`start + index * step`); the per-value attribute table and its
constructor check are not modelled, no settled property mentions them. -/
structure Dimension where
  dim_id : String
  values : List String
  coordinates : List (String × Int)
deriving DecidableEq, Repr

/-- `Dimension._generate_coordinates`: `{value: start + i * step}` over
`enumerate(values)`. -/
def generate_coordinates (values : List String) (start step : Int) : List (String × Int) :=
  dictOfPairs (values.enum.map (fun p => (p.2, start + (p.1 : Int) * step)))

/-- `Dimension.__init__` (attribute table omitted). -/
def mkDimension (dim_id : String) (values : List String) (start step : Int) : Dimension :=
  ⟨dim_id, values, generate_coordinates values start step⟩

/-- `Dimension.get_coordinate`: raises when the value is unknown. -/
def Dimension.get_coordinate (d : Dimension) (value : String) : Except String Int :=
  match dictGet d.coordinates value with
  | some c => .ok c
  | none => .error "Value not valid for dimension."

/-- `HighDimNetwork` (Dimension2Network.py). -/
structure HighDimNetwork where
  network_id : String
  dimension_list : List Dimension
  node_mapping : List (String × String)
  link_mapping : List (String × String)
  rule_manager : NetworkRuleManager
  dimension_id_list : List String
  graph : Graph

/-- `HighDimNetwork.__init__`: empty mappings, derived dimension id list,
fresh empty graph. -/
def mkHighDimNetwork (network_id : String) (dimension_list : List Dimension)
    (rule_manager : NetworkRuleManager) : HighDimNetwork :=
  let ids := dimension_list.map (fun d => d.dim_id)
  ⟨network_id, dimension_list, [], [], rule_manager, ids, ⟨network_id, ids, [], []⟩⟩

/-- `HighDimNetwork.add_node`: build the `Node` (its constructor may
raise) and add it to the graph. -/
def HighDimNetwork.add_node (net : HighDimNetwork) (node_id : String) (dim_list : List String)
    (dim_values_dic : List (String × String)) (coordinates_dic : List (String × Int))
    (attributes : List (String × PyVal)) : HighDimNetwork × Option String :=
  match mkNode node_id dim_list dim_values_dic coordinates_dic attributes with
  | .error e => (net, some e)
  | .ok n =>
    match net.graph.add_node n with
    | (g, e) => ({ net with graph := g }, e)

/-- `HighDimNetwork.add_link`: default link id is `source_target`. -/
def HighDimNetwork.add_link (net : HighDimNetwork) (source_id target_id : String)
    (link_id : Option String) (attributes : List (String × PyVal)) :
    HighDimNetwork × Option String :=
  let lid := link_id.getD (source_id ++ "_" ++ target_id)
  match net.graph.add_link ⟨lid, source_id, target_id, attributes⟩ with
  | (g, e) => ({ net with graph := g }, e)

/-- `HighDimNetwork.remove_link`: raises when the link id is absent, else
deletes it from the graph's link store and from `link_mapping`. -/
def HighDimNetwork.remove_link (net : HighDimNetwork) (link_id : String) :
    HighDimNetwork × Option String :=
  if dictHas net.graph.links link_id then
    ({ net with
        graph := { net.graph with links := dictErase net.graph.links link_id },
        link_mapping := dictErase net.link_mapping link_id }, none)
  else
    (net, some "Link does not exist in the graph.")

/-- The `for link_id in associated_links: self.remove_link(link_id)` loop
of `remove_node`; a raise inside `remove_link` propagates. -/
def removeLinksLoop : HighDimNetwork → List String → HighDimNetwork × Option String
  | net, [] => (net, none)
  | net, lid :: rest =>
    match net.remove_link lid with
    | (net', none) => removeLinksLoop net' rest
    | (net', some e) => (net', some e)

/-- `HighDimNetwork.remove_node`: raises when the node id is absent; else
removes every link whose source or target is the node, then the node
itself and its `node_mapping` entry. -/
def HighDimNetwork.remove_node (net : HighDimNetwork) (node_id : String) :
    HighDimNetwork × Option String :=
  if dictHas net.graph.nodes node_id then
    let associated_links := (net.graph.links.filter
        (fun p => p.2.source == node_id || p.2.target == node_id)).map Prod.fst
    match removeLinksLoop net associated_links with
    | (net1, some e) => (net1, some e)
    | (net1, none) =>
      ({ net1 with
          graph := { net1.graph with nodes := dictErase net1.graph.nodes node_id },
          node_mapping := dictErase net1.node_mapping node_id }, none)
  else
    (net, some "Node does not exist in the graph.")

theorem list_all_contains_iff (l ctx : List String) :
    l.all (fun d => ctx.contains d) = true ↔ ∀ d ∈ l, d ∈ ctx := by
  simp [List.all_eq_true]

/-- C2: `validate_link` is true iff every managed composite validates true
(so an empty manager returns true), and a composite `NetworkRule.validate`
is true iff some member subrule validates true (so an empty composite
returns false). -/
theorem C2_manager_and_composite (m : NetworkRuleManager) (nr : NetworkRule)
    (ctx : List String) (v1 v2 : List (String × String)) :
    (m.validate_link ctx v1 v2 = true ↔
      ∀ r ∈ dictValues m.link_rules, r.validate ctx v1 v2 = true)
    ∧ (m.link_rules = [] → m.validate_link ctx v1 v2 = true)
    ∧ (nr.validate ctx v1 v2 = true ↔ ∃ r ∈ nr.rules, r.validate ctx v1 v2 = true)
    ∧ (nr.rules = [] → nr.validate ctx v1 v2 = false) := by
  refine ⟨?_, ?_, ?_, ?_⟩
  · simp only [NetworkRuleManager.validate_link, dictValues, List.all_eq_true, List.mem_map]
    constructor
    · rintro h r ⟨p, hp, rfl⟩
      exact h p hp
    · intro h p hp
      exact h p.2 ⟨p, hp, rfl⟩
  · intro h
    simp [NetworkRuleManager.validate_link, h]
  · simp [NetworkRule.validate, List.any_eq_true]
  · intro h
    simp [NetworkRule.validate, h]

theorem C2_manager_and_composite_witness :
    NetworkRuleManager.validate_link ⟨"m", []⟩ [] [] [] = true
    ∧ NetworkRule.validate ⟨"r", [], []⟩ [] [] [] = false :=
  ⟨(C2_manager_and_composite ⟨"m", []⟩ ⟨"r", [], []⟩ [] [] []).2.1 rfl,
   (C2_manager_and_composite ⟨"m", []⟩ ⟨"r", [], []⟩ [] [] []).2.2.2 rfl⟩

/-- C3: a `Rule` whose dimension set is not contained in the context
dimension id list validates false regardless of the value assignments;
when it is contained, `validate` applies the predicate to the source
values followed by the target values of the rule's dimensions, each
extracted in the rule's dimension order. -/
theorem C3_rule_scope (r : Rule) (ctx : List String) (v1 v2 : List (String × String)) :
    (¬ (∀ d ∈ r.dimensions, d ∈ ctx) → r.validate ctx v1 v2 = false)
    ∧ ((∀ d ∈ r.dimensions, d ∈ ctx) →
        r.validate ctx v1 v2 =
          r.rule_function
            (r.dimensions.map (fun d => (dictGet v1 d).getD ""))
            (r.dimensions.map (fun d => (dictGet v2 d).getD ""))) := by
  constructor
  · intro h
    have hc : r.dimensions.all (fun d => ctx.contains d) = false := by
      by_contra hne
      exact h ((list_all_contains_iff _ _).1 (eq_true_of_ne_false hne))
    unfold Rule.validate
    rw [hc]
    simp
  · intro h
    have hc : r.dimensions.all (fun d => ctx.contains d) = true :=
      (list_all_contains_iff _ _).2 h
    unfold Rule.validate
    rw [hc]
    simp

theorem C3_rule_scope_witness :
    Rule.validate ⟨["X"], fun s t => decide (s = t)⟩ [] [("X", "v")] [("X", "v")] = false
    ∧ Rule.validate ⟨["X"], fun s t => decide (s = t)⟩ ["X"] [("X", "v")] [("X", "w")] = false := by
  constructor
  · exact (C3_rule_scope ⟨["X"], fun s t => decide (s = t)⟩ [] [("X", "v")] [("X", "v")]).1
      (by simp)
  · rw [(C3_rule_scope ⟨["X"], fun s t => decide (s = t)⟩ ["X"] [("X", "v")] [("X", "w")]).2
      (by simp)]
    rfl

def nodeA : Node := ⟨"a", [], [], [], []⟩

def nodeB : Node := ⟨"b", [], [], [], []⟩

def linkAB : Link := ⟨"L", "a", "b", []⟩

def linkBA : Link := ⟨"L", "b", "a", []⟩

def dupGraph : Graph := ⟨"g", [], [("a", nodeA), ("b", nodeB)], [("L", linkAB)]⟩

/-- C6: `add_node` with an existing node id does fail fast, but `add_link`
with an existing link id does NOT fail: on a graph already storing link
`"L" = a→b`, adding a different link with id `"L"` returns normally and
silently overwrites the stored entity. -/
theorem C6_add_link_overwrites :
    (dupGraph.add_node nodeA).2 = some "Node already exists."
    ∧ dictGet dupGraph.links "L" = some linkAB
    ∧ (dupGraph.add_link linkBA).2 = none
    ∧ dictGet (dupGraph.add_link linkBA).1.links "L" = some linkBA
    ∧ linkBA ≠ linkAB := by
  refine ⟨rfl, rfl, rfl, rfl, by decide⟩

/-- C10: removing an absent node or an absent link raises before any
mutation: the whole network state (graph nodes and links, `node_mapping`,
`link_mapping`) is returned exactly as it was. -/
theorem C10_remove_atomic_on_failure (net : HighDimNetwork) (nid lid : String)
    (hn : dictHas net.graph.nodes nid = false) (hl : dictHas net.graph.links lid = false) :
    net.remove_node nid = (net, some "Node does not exist in the graph.")
    ∧ net.remove_link lid = (net, some "Link does not exist in the graph.") := by
  constructor
  · simp [HighDimNetwork.remove_node, hn]
  · simp [HighDimNetwork.remove_link, hl]

theorem C10_remove_atomic_on_failure_witness :
    (mkHighDimNetwork "n" [] ⟨"m", []⟩).remove_node "x"
        = (mkHighDimNetwork "n" [] ⟨"m", []⟩, some "Node does not exist in the graph.")
    ∧ (mkHighDimNetwork "n" [] ⟨"m", []⟩).remove_link "y"
        = (mkHighDimNetwork "n" [] ⟨"m", []⟩, some "Link does not exist in the graph.") :=
  C10_remove_atomic_on_failure (mkHighDimNetwork "n" [] ⟨"m", []⟩) "x" "y" rfl rfl

theorem keyInj {α : Type} {d : List (String × α)} (h : (dictKeys d).Nodup) :
    ∀ p ∈ d, ∀ q ∈ d, p.1 = q.1 → p = q := by
  induction d with
  | nil => intro p hp; exact absurd hp (List.not_mem_nil p)
  | cons x rest ih =>
    simp only [dictKeys, List.map_cons, List.nodup_cons] at h
    intro p hp q hq he
    rcases List.mem_cons.1 hp with hpx | hpr
    · rcases List.mem_cons.1 hq with hqx | hqr
      · rw [hpx, hqx]
      · exfalso
        apply h.1
        rw [← dictKeys] at *
        have : q.1 ∈ dictKeys rest := List.mem_map.2 ⟨q, hqr, rfl⟩
        rw [hpx] at he
        rw [he]
        simpa [dictKeys] using this
    · rcases List.mem_cons.1 hq with hqx | hqr
      · exfalso
        apply h.1
        have : p.1 ∈ dictKeys rest := List.mem_map.2 ⟨p, hpr, rfl⟩
        rw [hqx] at he
        rw [← he]
        simpa [dictKeys] using this
      · exact ih h.2 p hpr q hqr he

theorem mem_keys_dictErase {α : Type} (d : List (String × α)) (k k' : String) :
    k' ∈ dictKeys (dictErase d k) ↔ k' ∈ dictKeys d ∧ k' ≠ k := by
  simp only [dictErase, dictKeys, List.mem_map, List.mem_filter]
  constructor
  · rintro ⟨p, ⟨hp, hne⟩, rfl⟩
    exact ⟨⟨p, hp, rfl⟩, by simpa using hne⟩
  · rintro ⟨⟨p, hp, rfl⟩, hne⟩
    exact ⟨p, ⟨hp, by simpa using hne⟩, rfl⟩

theorem dictKeys_dictErase_sublist {α : Type} (d : List (String × α)) (k : String) :
    List.Sublist (dictKeys (dictErase d k)) (dictKeys d) :=
  List.Sublist.map Prod.fst (List.filter_sublist d)

theorem filter_dictErase {α : Type} (d : List (String × α)) (lid : String)
    (rest : List String) :
    (dictErase d lid).filter (fun p => !(rest.contains p.1))
      = d.filter (fun p => !((lid :: rest).contains p.1)) := by
  simp only [dictErase, List.filter_filter]
  apply List.filter_congr
  intro p _
  simp only [List.contains_cons, Bool.not_or]
  cases hc : rest.contains p.1 <;> by_cases hp : p.1 = lid <;> simp [hp, hc, bne]

/-- The cascade loop of `remove_node`: removing a `Nodup` list of ids all
present in `links` succeeds and filters exactly those ids out of `links`
and `link_mapping`, touching nothing else. -/
theorem removeLinksLoop_spec (ids : List String) :
    ∀ net : HighDimNetwork, (∀ l ∈ ids, l ∈ dictKeys net.graph.links) → ids.Nodup →
    removeLinksLoop net ids =
      ({ net with
          graph := { net.graph with
            links := net.graph.links.filter (fun p => !(ids.contains p.1)) },
          link_mapping := net.link_mapping.filter (fun p => !(ids.contains p.1)) }, none) := by
  induction ids with
  | nil =>
    intro net _ _
    simp [removeLinksLoop]
  | cons lid rest ih =>
    intro net hsub hnd
    have hmem : dictHas net.graph.links lid = true :=
      (dictHas_iff_mem_keys _ _).2 (hsub lid (List.mem_cons_self _ _))
    have hsub' : ∀ l ∈ rest,
        l ∈ dictKeys (dictErase net.graph.links lid) := by
      intro l hl
      rw [mem_keys_dictErase]
      refine ⟨hsub l (List.mem_cons_of_mem _ hl), ?_⟩
      intro he
      rw [he] at hl
      exact (List.nodup_cons.1 hnd).1 hl
    simp only [removeLinksLoop, HighDimNetwork.remove_link, hmem, if_true]
    rw [ih _ hsub' (List.nodup_cons.1 hnd).2]
    rw [show (dictErase net.graph.links lid).filter (fun p => !(rest.contains p.1))
          = net.graph.links.filter (fun p => !((lid :: rest).contains p.1)) from
        filter_dictErase _ _ _]
    rw [show (dictErase net.link_mapping lid).filter (fun p => !(rest.contains p.1))
          = net.link_mapping.filter (fun p => !((lid :: rest).contains p.1)) from
        filter_dictErase _ _ _]

theorem contains_keys_filter {α : Type} {d : List (String × α)}
    (hnd : (dictKeys d).Nodup) (q : String × α → Bool) :
    ∀ p ∈ d, (((d.filter q).map Prod.fst).contains p.1) = q p := by
  intro p hp
  cases hqp : q p with
  | true =>
    have hpin : p.1 ∈ (d.filter q).map Prod.fst :=
      List.mem_map.2 ⟨p, List.mem_filter.2 ⟨hp, hqp⟩, rfl⟩
    simpa using hpin
  | false =>
    have hpout : p.1 ∉ (d.filter q).map Prod.fst := by
      intro hin
      rcases List.mem_map.1 hin with ⟨p', hp', he⟩
      have hp'd := (List.mem_filter.1 hp').1
      have : p' = p := keyInj hnd p' hp'd p hp he
      rw [this] at hp'
      rw [(List.mem_filter.1 hp').2] at hqp
      exact absurd hqp (by simp)
    simpa using hpout

/-- `remove_node` on a present node id, as one state equation. -/
theorem remove_node_eq (net : HighDimNetwork) (node_id : String)
    (hnd : (dictKeys net.graph.links).Nodup)
    (hmem : dictHas net.graph.nodes node_id = true) :
    net.remove_node node_id =
      ({ net with
          graph := { net.graph with
            nodes := dictErase net.graph.nodes node_id,
            links := net.graph.links.filter
              (fun p => !(p.2.source == node_id || p.2.target == node_id)) },
          node_mapping := dictErase net.node_mapping node_id,
          link_mapping := net.link_mapping.filter
            (fun p => !(((net.graph.links.filter
              (fun p => p.2.source == node_id || p.2.target == node_id)).map
                Prod.fst).contains p.1)) }, none) := by
  have hsub : ∀ l ∈ (net.graph.links.filter
      (fun p => p.2.source == node_id || p.2.target == node_id)).map Prod.fst,
      l ∈ dictKeys net.graph.links := by
    intro l hl
    rcases List.mem_map.1 hl with ⟨p, hp, rfl⟩
    exact List.mem_map.2 ⟨p, (List.mem_filter.1 hp).1, rfl⟩
  have hidsnd : ((net.graph.links.filter
      (fun p => p.2.source == node_id || p.2.target == node_id)).map Prod.fst).Nodup :=
    List.Nodup.sublist (List.Sublist.map Prod.fst (List.filter_sublist _)) hnd
  have hloop := removeLinksLoop_spec
    ((net.graph.links.filter
      (fun p => p.2.source == node_id || p.2.target == node_id)).map Prod.fst)
    net hsub hidsnd
  have hlinks : net.graph.links.filter
      (fun p => !((((net.graph.links.filter
        (fun p => p.2.source == node_id || p.2.target == node_id)).map
          Prod.fst)).contains p.1))
      = net.graph.links.filter
        (fun p => !(p.2.source == node_id || p.2.target == node_id)) := by
    apply List.filter_congr
    intro p hp
    rw [contains_keys_filter hnd _ p hp]
  simp only [HighDimNetwork.remove_node, hmem, if_true, hloop, hlinks]

/-- C7: `remove_node` fails on an absent id; on a present id it removes
exactly the links touching the node (and no other link), then the node
and its `node_mapping` entry, leaving all other nodes and the rest of the
network unchanged. -/
theorem C7_remove_node_cascades (net : HighDimNetwork) (node_id : String)
    (hnd : (dictKeys net.graph.links).Nodup) :
    (dictHas net.graph.nodes node_id = false →
      net.remove_node node_id = (net, some "Node does not exist in the graph."))
    ∧ (dictHas net.graph.nodes node_id = true →
      ((net.remove_node node_id).2 = none
      ∧ (net.remove_node node_id).1.graph.links
          = net.graph.links.filter
              (fun p => !(p.2.source == node_id || p.2.target == node_id))
      ∧ (net.remove_node node_id).1.graph.nodes = dictErase net.graph.nodes node_id
      ∧ (net.remove_node node_id).1.node_mapping = dictErase net.node_mapping node_id
      ∧ (net.remove_node node_id).1.dimension_list = net.dimension_list
      ∧ (net.remove_node node_id).1.rule_manager = net.rule_manager
      ∧ (net.remove_node node_id).1.network_id = net.network_id)) := by
  constructor
  · intro habs
    simp [HighDimNetwork.remove_node, habs]
  · intro hmem
    rw [remove_node_eq net node_id hnd hmem]
    exact ⟨rfl, rfl, rfl, rfl, rfl, rfl, rfl⟩

def node7a : Node := ⟨"a", [], [], [], []⟩

def node7b : Node := ⟨"b", [], [], [], []⟩

def net7 : HighDimNetwork :=
  ⟨"n", [], [("a", "origin")], [("L1", "origin")], ⟨"m", []⟩, [],
    ⟨"n", [], [("a", node7a), ("b", node7b)],
      [("L1", ⟨"L1", "a", "b", []⟩), ("L2", ⟨"L2", "b", "b", []⟩)]⟩⟩

theorem C7_remove_node_cascades_witness :
    (net7.remove_node "zz" = (net7, some "Node does not exist in the graph."))
    ∧ ((net7.remove_node "a").2 = none
      ∧ (net7.remove_node "a").1.graph.links
          = net7.graph.links.filter
              (fun p => !(p.2.source == "a" || p.2.target == "a"))
      ∧ (net7.remove_node "a").1.graph.nodes = dictErase net7.graph.nodes "a"
      ∧ (net7.remove_node "a").1.node_mapping = dictErase net7.node_mapping "a") := by
  refine ⟨(C7_remove_node_cascades net7 "zz" (by decide)).1 (by decide), ?_⟩
  have h := (C7_remove_node_cascades net7 "a" (by decide)).2 (by decide)
  exact ⟨h.1, h.2.1, h.2.2.1, h.2.2.2.1⟩

/-- The pair enumeration of `construct_links`: Python
`for i, source_id in enumerate(node_ids): for target_id in node_ids[i+1:]`. -/
def linkPairs : List String → List (String × String)
  | [] => []
  | x :: xs => (xs.map (fun y => (x, y))) ++ linkPairs xs

/-- A junk node, the embedding artifact backing the always-present Python
subscript `self.graph.nodes[node_id]`. -/
def defaultNode : Node := ⟨"", [], [], [], []⟩

/-- The loop body of `construct_links`: skip identical ids, evaluate the
rule manager, add the approved link (a raise in `add_link` propagates). -/
def construct_links_loop : HighDimNetwork → List (String × String) → HighDimNetwork × Option String
  | net, [] => (net, none)
  | net, (s, t) :: rest =>
    if s == t then construct_links_loop net rest
    else
      if net.rule_manager.validate_link net.dimension_id_list
          (((dictGet net.graph.nodes s).getD defaultNode).dim_values_dic)
          (((dictGet net.graph.nodes t).getD defaultNode).dim_values_dic) then
        match net.add_link s t none [] with
        | (net', none) => construct_links_loop net' rest
        | (net', some e) => (net', some e)
      else
        construct_links_loop net rest

/-- `HighDimNetwork.construct_links`. -/
def HighDimNetwork.construct_links (net : HighDimNetwork) : HighDimNetwork × Option String :=
  construct_links_loop net (linkPairs (dictKeys net.graph.nodes))

theorem mem_linkPairs_mem {l : List String} {a b : String} :
    (a, b) ∈ linkPairs l → a ∈ l ∧ b ∈ l := by
  induction l with
  | nil => intro h; exact absurd h (List.not_mem_nil _)
  | cons x xs ih =>
    intro h
    rcases List.mem_append.1 h with hm | hr
    · rcases List.mem_map.1 hm with ⟨y, hy, he⟩
      obtain ⟨rfl, rfl⟩ := Prod.mk.injEq .. ▸ (Prod.mk.inj he.symm)
      exact ⟨List.mem_cons_self _ _, List.mem_cons_of_mem _ hy⟩
    · obtain ⟨ha, hb⟩ := ih hr
      exact ⟨List.mem_cons_of_mem _ ha, List.mem_cons_of_mem _ hb⟩

theorem mem_linkPairs_iff_sublist {l : List String} {a b : String} :
    (a, b) ∈ linkPairs l ↔ List.Sublist [a, b] l := by
  induction l with
  | nil => simp [linkPairs]
  | cons x xs ih =>
    simp only [linkPairs, List.mem_append, List.mem_map]
    constructor
    · rintro (⟨y, hy, he⟩ | hr)
      · obtain ⟨rfl, rfl⟩ := Prod.mk.inj he.symm
        exact List.Sublist.cons₂ a (List.singleton_sublist.2 hy)
      · exact List.Sublist.cons x (ih.1 hr)
    · intro hs
      cases hs with
      | cons _ h => exact Or.inr (ih.2 h)
      | cons₂ _ h => exact Or.inl ⟨b, List.singleton_sublist.1 h, rfl⟩

theorem linkPairs_length (l : List String) :
    (linkPairs l).length = l.length.choose 2 := by
  induction l with
  | nil => simp [linkPairs]
  | cons x xs ih =>
    simp only [linkPairs, List.length_append, List.length_map, List.length_cons, ih]
    rw [Nat.choose_succ_succ, Nat.choose_one_right]

theorem linkPairs_nodup {l : List String} (h : l.Nodup) : (linkPairs l).Nodup := by
  induction l with
  | nil => simp [linkPairs]
  | cons x xs ih =>
    obtain ⟨hx, hxs⟩ := List.nodup_cons.1 h
    simp only [linkPairs]
    apply List.Nodup.append
    · exact hxs.map (fun y z he => (Prod.mk.inj he).2)
    · exact ih hxs
    · intro p hp hq
      rcases List.mem_map.1 hp with ⟨y, _, rfl⟩
      exact hx (mem_linkPairs_mem hq).1

theorem sublist_pair_antisym {l : List String} (h : l.Nodup) {a b : String}
    (h1 : List.Sublist [a, b] l) (h2 : List.Sublist [b, a] l) : a = b := by
  induction l with
  | nil => cases h1
  | cons x xs ih =>
    obtain ⟨hx, hxs⟩ := List.nodup_cons.1 h
    cases h1 with
    | cons _ g1 =>
      cases h2 with
      | cons _ g2 => exact ih hxs g1 g2
      | cons₂ _ g2 =>
        exfalso
        exact hx ((mem_linkPairs_iff_sublist (l := xs)).2 g1 |> mem_linkPairs_mem).2
    | cons₂ _ g1 =>
      cases h2 with
      | cons _ g2 =>
        exfalso
        exact hx ((mem_linkPairs_iff_sublist (l := xs)).2 g2 |> mem_linkPairs_mem).2
      | cons₂ _ g2 => rfl

theorem sublist_pair_total {l : List String} {a b : String}
    (ha : a ∈ l) (hb : b ∈ l) (hne : a ≠ b) :
    List.Sublist [a, b] l ∨ List.Sublist [b, a] l := by
  induction l with
  | nil => exact absurd ha (List.not_mem_nil _)
  | cons x xs ih =>
    rcases List.mem_cons.1 ha with rfl | ha'
    · have hb' : b ∈ xs := by
        rcases List.mem_cons.1 hb with rfl | hb'
        · exact absurd rfl hne
        · exact hb'
      exact Or.inl (List.Sublist.cons₂ a (List.singleton_sublist.2 hb'))
    · rcases List.mem_cons.1 hb with rfl | hb'
      · exact Or.inr (List.Sublist.cons₂ b (List.singleton_sublist.2 ha'))
      · rcases ih ha' hb' with h | h
        · exact Or.inl (List.Sublist.cons x h)
        · exact Or.inr (List.Sublist.cons x h)

theorem mem_keys_dictSet {α : Type} (d : List (String × α)) (k : String) (v : α) (k' : String) :
    k' ∈ dictKeys (dictSet d k v) ↔ k' = k ∨ k' ∈ dictKeys d := by
  induction d with
  | nil => simp [dictSet, dictKeys]
  | cons p rest ih =>
    by_cases h : p.1 = k
    · simp only [dictSet, beq_iff_eq.2 h, if_true, dictKeys, List.map_cons, List.mem_cons]
      rw [h]
      tauto
    · simp only [dictSet, beq_eq_false_iff_ne.2 h, Bool.false_eq_true, if_false, dictKeys,
        List.map_cons, List.mem_cons]
      rw [show (List.map Prod.fst (dictSet rest k v) : List String)
            = dictKeys (dictSet rest k v) from rfl, ih]
      rw [show (List.map Prod.fst rest : List String) = dictKeys rest from rfl]
      tauto

theorem dictHas_dictSet {α : Type} (d : List (String × α)) (k : String) (v : α) (k' : String) :
    dictHas (dictSet d k v) k' = ((k' == k) || dictHas d k') := by
  have h : dictHas (dictSet d k v) k' = true ↔ ((k' == k) || dictHas d k') = true := by
    rw [dictHas_iff_mem_keys, mem_keys_dictSet]
    simp [dictHas_iff_mem_keys]
  cases hb : dictHas (dictSet d k v) k' <;>
    cases hb2 : ((k' == k) || dictHas d k') <;> simp_all

theorem add_link_ok (net : HighDimNetwork) (s t : String)
    (hs : dictHas net.graph.nodes s = true) (ht : dictHas net.graph.nodes t = true) :
    net.add_link s t none [] =
      ({ net with graph := { net.graph with
          links := dictSet net.graph.links (s ++ "_" ++ t) ⟨s ++ "_" ++ t, s, t, []⟩ } },
        none) := by
  simp [HighDimNetwork.add_link, Graph.add_link, hs, ht]

/-- What approval of a candidate pair means in `construct_links`. -/
def approvedPair (net : HighDimNetwork) (s t : String) : Bool :=
  net.rule_manager.validate_link net.dimension_id_list
    (((dictGet net.graph.nodes s).getD defaultNode).dim_values_dic)
    (((dictGet net.graph.nodes t).getD defaultNode).dim_values_dic)

theorem construct_links_loop_spec (pairs : List (String × String)) :
    ∀ net : HighDimNetwork,
      (∀ p ∈ pairs, p.1 ∈ dictKeys net.graph.nodes ∧ p.2 ∈ dictKeys net.graph.nodes) →
      ((construct_links_loop net pairs).2 = none
      ∧ (construct_links_loop net pairs).1.graph.nodes = net.graph.nodes
      ∧ (construct_links_loop net pairs).1.rule_manager = net.rule_manager
      ∧ (construct_links_loop net pairs).1.dimension_id_list = net.dimension_id_list
      ∧ (∀ k : String, dictHas (construct_links_loop net pairs).1.graph.links k = true ↔
          (dictHas net.graph.links k = true ∨
            ∃ p ∈ pairs, p.1 ≠ p.2 ∧ approvedPair net p.1 p.2 = true
              ∧ k = p.1 ++ "_" ++ p.2))) := by
  induction pairs with
  | nil =>
    intro net _
    refine ⟨rfl, rfl, rfl, rfl, fun k => ?_⟩
    simp [construct_links_loop]
  | cons pr rest ih =>
    intro net hsub
    obtain ⟨s, t⟩ := pr
    by_cases hst : s = t
    · have hb : (s == t) = true := beq_iff_eq.2 hst
      have hrec := ih net (fun p hp => hsub p (List.mem_cons_of_mem _ hp))
      simp only [construct_links_loop, hb, if_true]
      refine ⟨hrec.1, hrec.2.1, hrec.2.2.1, hrec.2.2.2.1, fun k => ?_⟩
      rw [hrec.2.2.2.2 k]
      constructor
      · rintro (h | ⟨p, hp, hne, hap, hk⟩)
        · exact Or.inl h
        · exact Or.inr ⟨p, List.mem_cons_of_mem _ hp, hne, hap, hk⟩
      · rintro (h | ⟨p, hp, hne, hap, hk⟩)
        · exact Or.inl h
        · rcases List.mem_cons.1 hp with rfl | hp'
          · exact absurd hst hne
          · exact Or.inr ⟨p, hp', hne, hap, hk⟩
    · have hb : (s == t) = false := beq_eq_false_iff_ne.2 hst
      have hs : dictHas net.graph.nodes s = true :=
        (dictHas_iff_mem_keys _ _).2 (hsub (s, t) (List.mem_cons_self _ _)).1
      have ht : dictHas net.graph.nodes t = true :=
        (dictHas_iff_mem_keys _ _).2 (hsub (s, t) (List.mem_cons_self _ _)).2
      by_cases happ : approvedPair net s t = true
      · have hval := happ
        unfold approvedPair at hval
        simp only [construct_links_loop, hb, Bool.false_eq_true, if_false, hval, if_true,
          add_link_ok net s t hs ht]
        set net1 : HighDimNetwork :=
          { net with graph := { net.graph with
              links := dictSet net.graph.links (s ++ "_" ++ t) ⟨s ++ "_" ++ t, s, t, []⟩ } }
          with hnet1
        have hsub1 : ∀ p ∈ rest, p.1 ∈ dictKeys net1.graph.nodes
            ∧ p.2 ∈ dictKeys net1.graph.nodes := by
          intro p hp
          exact hsub p (List.mem_cons_of_mem _ hp)
        have hrec := ih net1 hsub1
        refine ⟨hrec.1, hrec.2.1, hrec.2.2.1, hrec.2.2.2.1, fun k => ?_⟩
        rw [hrec.2.2.2.2 k]
        have hlinks1 : dictHas net1.graph.links k
            = ((k == s ++ "_" ++ t) || dictHas net.graph.links k) :=
          dictHas_dictSet _ _ _ _
        have happ1 : ∀ p : String × String, approvedPair net1 p.1 p.2 = approvedPair net p.1 p.2 := by
          intro p
          rfl
        constructor
        · rintro (h | ⟨p, hp, hne, hap, hk⟩)
          · rw [hlinks1] at h
            rcases Bool.or_eq_true_iff.1 h with h' | h'
            · exact Or.inr ⟨(s, t), List.mem_cons_self _ _, hst, happ, beq_iff_eq.1 h'⟩
            · exact Or.inl h'
          · exact Or.inr ⟨p, List.mem_cons_of_mem _ hp, hne, (happ1 p) ▸ hap, hk⟩
        · rintro (h | ⟨p, hp, hne, hap, hk⟩)
          · refine Or.inl ?_
            rw [hlinks1]
            simp [h]
          · rcases List.mem_cons.1 hp with heq | hp'
            · refine Or.inl ?_
              rw [hlinks1]
              have : k = s ++ "_" ++ t := by rw [heq] at hk; exact hk
              simp [this]
            · exact Or.inr ⟨p, hp', hne, (happ1 p).symm ▸ hap, hk⟩
      · have hval : net.rule_manager.validate_link net.dimension_id_list
            (((dictGet net.graph.nodes s).getD defaultNode).dim_values_dic)
            (((dictGet net.graph.nodes t).getD defaultNode).dim_values_dic) = false := by
          unfold approvedPair at happ
          exact Bool.not_eq_true _ ▸ (by simpa using happ)
        have hrec := ih net (fun p hp => hsub p (List.mem_cons_of_mem _ hp))
        simp only [construct_links_loop, hb, Bool.false_eq_true, if_false, hval]
        refine ⟨hrec.1, hrec.2.1, hrec.2.2.1, hrec.2.2.2.1, fun k => ?_⟩
        rw [hrec.2.2.2.2 k]
        constructor
        · rintro (h | ⟨p, hp, hne, hap, hk⟩)
          · exact Or.inl h
          · exact Or.inr ⟨p, List.mem_cons_of_mem _ hp, hne, hap, hk⟩
        · rintro (h | ⟨p, hp, hne, hap, hk⟩)
          · exact Or.inl h
          · rcases List.mem_cons.1 hp with heq | hp'
            · exfalso
              apply happ
              rw [heq] at hap
              exact hap
            · exact Or.inr ⟨p, hp', hne, hap, hk⟩

/-- C4: with `n` stored nodes, `construct_links` enumerates exactly the
`n(n-1)/2` ordered pairs whose source precedes the target in
node-enumeration order — each unordered pair of distinct nodes exactly
once — evaluates the rule manager on each such pair, and the run ends
normally with a link of deterministic id `source_target` stored for
exactly the approved pairs (on top of the links already present). -/
theorem C4_construct_links (net : HighDimNetwork)
    (hnd : (dictKeys net.graph.nodes).Nodup) :
    ((linkPairs (dictKeys net.graph.nodes)).length
        = (dictKeys net.graph.nodes).length * ((dictKeys net.graph.nodes).length - 1) / 2)
    ∧ (∀ a b : String, (a, b) ∈ linkPairs (dictKeys net.graph.nodes)
        ↔ List.Sublist [a, b] (dictKeys net.graph.nodes))
    ∧ (linkPairs (dictKeys net.graph.nodes)).Nodup
    ∧ (∀ a b : String, a ∈ dictKeys net.graph.nodes → b ∈ dictKeys net.graph.nodes →
        a ≠ b →
        ((a, b) ∈ linkPairs (dictKeys net.graph.nodes)
          ↔ ¬ ((b, a) ∈ linkPairs (dictKeys net.graph.nodes))))
    ∧ net.construct_links.2 = none
    ∧ net.construct_links.1.graph.nodes = net.graph.nodes
    ∧ (∀ k : String, dictHas net.construct_links.1.graph.links k = true ↔
        (dictHas net.graph.links k = true ∨
          ∃ p ∈ linkPairs (dictKeys net.graph.nodes),
            approvedPair net p.1 p.2 = true ∧ k = p.1 ++ "_" ++ p.2)) := by
  have hpairne : ∀ p ∈ linkPairs (dictKeys net.graph.nodes), p.1 ≠ p.2 := by
    intro p hp
    have hsl : List.Sublist [p.1, p.2] (dictKeys net.graph.nodes) :=
      mem_linkPairs_iff_sublist.1 (by rcases p with ⟨a, b⟩; exact hp)
    have : ([p.1, p.2] : List String).Nodup := List.Nodup.sublist hsl hnd
    simpa using (List.nodup_cons.1 this).1
  have hsub : ∀ p ∈ linkPairs (dictKeys net.graph.nodes),
      p.1 ∈ dictKeys net.graph.nodes ∧ p.2 ∈ dictKeys net.graph.nodes := by
    intro p hp
    rcases p with ⟨a, b⟩
    exact mem_linkPairs_mem hp
  have hloop := construct_links_loop_spec (linkPairs (dictKeys net.graph.nodes)) net hsub
  refine ⟨?_, ?_, linkPairs_nodup hnd, ?_, hloop.1, hloop.2.1, ?_⟩
  · rw [linkPairs_length, Nat.choose_two_right]
  · intro a b
    exact mem_linkPairs_iff_sublist
  · intro a b ha hb hne
    constructor
    · intro hab hba
      exact hne (sublist_pair_antisym hnd
        (mem_linkPairs_iff_sublist.1 hab) (mem_linkPairs_iff_sublist.1 hba))
    · intro hnotba
      rcases sublist_pair_total ha hb hne with h | h
      · exact mem_linkPairs_iff_sublist.2 h
      · exact absurd (mem_linkPairs_iff_sublist.2 h) hnotba
  · intro k
    rw [show net.construct_links
          = construct_links_loop net (linkPairs (dictKeys net.graph.nodes)) from rfl,
      hloop.2.2.2.2 k]
    constructor
    · rintro (h | ⟨p, hp, _, hap, hk⟩)
      · exact Or.inl h
      · exact Or.inr ⟨p, hp, hap, hk⟩
    · rintro (h | ⟨p, hp, hap, hk⟩)
      · exact Or.inl h
      · exact Or.inr ⟨p, hp, hpairne p hp, hap, hk⟩

def net4 : HighDimNetwork :=
  ⟨"n4", [], [], [], ⟨"m", []⟩, [],
    ⟨"n4", [], [("a", ⟨"a", [], [], [], []⟩), ("b", ⟨"b", [], [], [], []⟩),
      ("c", ⟨"c", [], [], [], []⟩)], []⟩⟩

theorem C4_construct_links_witness :
    (dictKeys net4.graph.nodes).Nodup
    ∧ ((linkPairs (dictKeys net4.graph.nodes)).length
        = (dictKeys net4.graph.nodes).length * ((dictKeys net4.graph.nodes).length - 1) / 2)
    ∧ net4.construct_links.2 = none :=
  ⟨by decide, (C4_construct_links net4 (by decide)).1,
    (C4_construct_links net4 (by decide)).2.2.2.2.1⟩

/-- Python `"_".join(parts)`. -/
def joinUnderscore : List String → String
  | [] => ""
  | [s] => s
  | s :: rest => s ++ "_" ++ joinUnderscore rest

/-- `itertools.product(*value_ranges)` over a list of value lists: the
first list varies slowest, exactly as the nested loops iterate. -/
def cartProd {α : Type} : List (List α) → List (List α)
  | [] => [[]]
  | vs :: rest => vs.flatMap (fun v => (cartProd rest).map (fun t => v :: t))

/-- The coordinate dict comprehension of `construct_nodes`:
`{dim.dim_id: dim.get_coordinate(value) for dim, value in zip(...)}`; a
raise inside `get_coordinate` propagates. -/
def coordsOfCombination : List (Dimension × String) → Except String (List (String × Int))
  | [] => .ok []
  | (dim, value) :: rest => do
    let c ← dim.get_coordinate value
    let restc ← coordsOfCombination rest
    .ok ((dim.dim_id, c) :: restc)

/-- The per-combination loop body of `construct_nodes`. -/
def construct_nodes_loop : HighDimNetwork → List String → List (List String) →
    HighDimNetwork × Option String
  | net, _, [] => (net, none)
  | net, dim_list, combination :: rest =>
    match coordsOfCombination (net.dimension_list.zip combination) with
    | .error e => (net, some e)
    | .ok coords =>
      let dim_values_dic := dictOfPairs (dim_list.zip combination)
      let coordinates_dic := dictOfPairs coords
      let node_id := joinUnderscore combination
      let attributes := [("node_type", PyVal.str "default"),
        ("dimension_count", PyVal.int dim_list.length)]
      match net.add_node node_id dim_list dim_values_dic coordinates_dic attributes with
      | (net', none) => construct_nodes_loop net' dim_list rest
      | (net', some e) => (net', some e)

/-- `HighDimNetwork.construct_nodes`: enumerate the Cartesian product of
the dimension value lists in dimension-list order; each combination
becomes one node whose id is the values joined by `"_"`. -/
def HighDimNetwork.construct_nodes (net : HighDimNetwork) : HighDimNetwork × Option String :=
  construct_nodes_loop net (net.dimension_list.map (fun d => d.dim_id))
    (cartProd (net.dimension_list.map (fun d => d.values)))

/-- `HighDimNetwork.construct_network`: nodes, then links; a raise during
node construction propagates before link construction starts. -/
def HighDimNetwork.construct_network (net : HighDimNetwork) : HighDimNetwork × Option String :=
  match net.construct_nodes with
  | (net1, some e) => (net1, some e)
  | (net1, none) => net1.construct_links

def cexD1 : Dimension := mkDimension "D1" ["A", "A_B"] 0 1

def cexD2 : Dimension := mkDimension "D2" ["B_C", "C"] 0 1

def cexNet : HighDimNetwork := mkHighDimNetwork "cex" [cexD1, cexD2] ⟨"m", []⟩

theorem sepFree_append_inj (s : List Char) :
    ∀ (t r1 r2 : List Char), '_' ∉ s → '_' ∉ t →
    s ++ '_' :: r1 = t ++ '_' :: r2 → s = t ∧ r1 = r2 := by
  induction s with
  | nil =>
    intro t r1 r2 _ ht h
    cases t with
    | nil => simpa using h
    | cons c t' =>
      exfalso
      simp only [List.nil_append, List.cons_append, List.cons.injEq] at h
      exact ht (h.1 ▸ List.mem_cons_self _ _)
  | cons c s' ih =>
    intro t r1 r2 hs ht h
    cases t with
    | nil =>
      exfalso
      simp only [List.cons_append, List.nil_append, List.cons.injEq] at h
      exact hs (h.1 ▸ List.mem_cons_self _ _)
    | cons c2 t' =>
      simp only [List.cons_append, List.cons.injEq] at h
      obtain ⟨rfl, h2⟩ := h
      have hs' : '_' ∉ s' := fun hm => hs (List.mem_cons_of_mem _ hm)
      have ht' : '_' ∉ t' := fun hm => ht (List.mem_cons_of_mem _ hm)
      obtain ⟨rfl, hr⟩ := ih t' r1 r2 hs' ht' h2
      exact ⟨rfl, hr⟩

/-- The character-level counterpart of `joinUnderscore`. -/
def joinSepData : List (List Char) → List Char
  | [] => []
  | [s] => s
  | s :: rest => s ++ '_' :: joinSepData rest

theorem joinUnderscore_data (l : List String) :
    (joinUnderscore l).data = joinSepData (l.map String.data) := by
  induction l with
  | nil => rfl
  | cons s rest ih =>
    cases rest with
    | nil => rfl
    | cons t r =>
      show ((s ++ "_") ++ joinUnderscore (t :: r)).data
        = s.data ++ '_' :: joinSepData ((t :: r).map String.data)
      rw [String.data_append, String.data_append, ← ih]
      simp

theorem joinSepData_inj (l1 : List (List Char)) :
    ∀ l2 : List (List Char), l1.length = l2.length →
    (∀ s ∈ l1, '_' ∉ s) → (∀ s ∈ l2, '_' ∉ s) →
    joinSepData l1 = joinSepData l2 → l1 = l2 := by
  induction l1 with
  | nil =>
    intro l2 hlen _ _ _
    cases l2 with
    | nil => rfl
    | cons t r2 => simp at hlen
  | cons s r1 ih =>
    intro l2 hlen h1 h2 h
    cases l2 with
    | nil => simp at hlen
    | cons t r2 =>
      cases r1 with
      | nil =>
        cases r2 with
        | nil =>
          show [s] = [t]
          rw [show joinSepData [s] = s from rfl, show joinSepData [t] = t from rfl] at h
          rw [h]
        | cons b bs => simp at hlen
      | cons a as =>
        cases r2 with
        | nil => simp at hlen
        | cons b bs =>
          have hj : s ++ '_' :: joinSepData (a :: as) = t ++ '_' :: joinSepData (b :: bs) := h
          obtain ⟨rfl, hrest⟩ := sepFree_append_inj s t _ _
            (h1 s (List.mem_cons_self _ _)) (h2 t (List.mem_cons_self _ _)) hj
          have := ih (b :: bs) (by simpa using hlen)
            (fun x hx => h1 x (List.mem_cons_of_mem _ hx))
            (fun x hx => h2 x (List.mem_cons_of_mem _ hx)) hrest
          rw [this]

theorem string_data_inj : Function.Injective String.data := by
  intro a b h
  cases a
  cases b
  simp_all

theorem joinUnderscore_inj (l1 l2 : List String) (hlen : l1.length = l2.length)
    (h1 : ∀ s ∈ l1, '_' ∉ s.data) (h2 : ∀ s ∈ l2, '_' ∉ s.data)
    (h : joinUnderscore l1 = joinUnderscore l2) : l1 = l2 := by
  have hd := congrArg String.data h
  rw [joinUnderscore_data, joinUnderscore_data] at hd
  have hm := joinSepData_inj (l1.map String.data) (l2.map String.data)
    (by simp [hlen])
    (by intro s hs; rcases List.mem_map.1 hs with ⟨x, hx, rfl⟩; exact h1 x hx)
    (by intro s hs; rcases List.mem_map.1 hs with ⟨x, hx, rfl⟩; exact h2 x hx) hd
  exact (List.map_injective_iff.2 string_data_inj) hm

theorem mem_cartProd {α : Type} : ∀ {L : List (List α)} {c : List α},
    c ∈ cartProd L ↔ List.Forall₂ (fun v vs => v ∈ vs) c L := by
  intro L
  induction L with
  | nil =>
    intro c
    simp [cartProd, List.forall₂_nil_right_iff]
  | cons vs rest ih =>
    intro c
    simp only [cartProd, List.mem_flatMap, List.mem_map, List.forall₂_cons_right_iff]
    constructor
    · rintro ⟨v, hv, t, ht, rfl⟩
      exact ⟨v, t, hv, ih.1 ht, rfl⟩
    · rintro ⟨v, t, hv, hf, rfl⟩
      exact ⟨v, hv, t, ih.2 hf, rfl⟩

theorem cartProd_mem_length {α : Type} {L : List (List α)} {c : List α}
    (h : c ∈ cartProd L) : c.length = L.length :=
  (mem_cartProd.1 h).length_eq

theorem sum_map_const {α : Type} (l : List α) (n : Nat) :
    (l.map (fun _ => n)).sum = l.length * n := by
  induction l with
  | nil => simp
  | cons x xs ih =>
    simp only [List.map_cons, List.sum_cons, ih, List.length_cons]
    rw [Nat.succ_mul, Nat.add_comm]

theorem cartProd_length {α : Type} (L : List (List α)) :
    (cartProd L).length = (L.map List.length).prod := by
  induction L with
  | nil => rfl
  | cons vs rest ih =>
    simp only [cartProd, List.length_flatMap, List.map_cons, List.prod_cons]
    rw [show (List.length ∘ fun v => List.map (fun t => v :: t) (cartProd rest))
          = fun _ => (cartProd rest).length from funext (fun v => by simp)]
    rw [sum_map_const vs (cartProd rest).length, ih]

theorem flatMap_cons_nodup {α : Type} (M : List (List α)) (hM : M.Nodup) :
    ∀ vs : List α, vs.Nodup →
    (vs.flatMap (fun v => M.map (fun t => v :: t))).Nodup := by
  intro vs
  induction vs with
  | nil => intro _; simp
  | cons v vs' ih =>
    intro hnd
    obtain ⟨hv, hvs'⟩ := List.nodup_cons.1 hnd
    simp only [List.flatMap_cons]
    apply List.Nodup.append
    · exact hM.map (fun a b he => (List.cons.injEq .. ▸ he).2)
    · exact ih hvs'
    · intro x hx hy
      rcases List.mem_map.1 hx with ⟨t, _, rfl⟩
      rcases List.mem_flatMap.1 hy with ⟨v', hv', hx'⟩
      rcases List.mem_map.1 hx' with ⟨t', _, he⟩
      have : v' = v := (List.cons.injEq .. ▸ he).1
      exact hv (this ▸ hv')

theorem cartProd_nodup {α : Type} : ∀ {L : List (List α)},
    (∀ l ∈ L, l.Nodup) → (cartProd L).Nodup := by
  intro L
  induction L with
  | nil => intro _; simp [cartProd]
  | cons vs rest ih =>
    intro h
    exact flatMap_cons_nodup (cartProd rest)
      (ih (fun l hl => h l (List.mem_cons_of_mem _ hl)))
      vs (h vs (List.mem_cons_self _ _))

theorem mem_zip_swap {α β : Type} : ∀ {l1 : List α} {l2 : List β} {a : α} {b : β},
    (a, b) ∈ l1.zip l2 → (b, a) ∈ l2.zip l1 := by
  intro l1
  induction l1 with
  | nil => intro l2 a b h; simp at h
  | cons x xs ih =>
    intro l2 a b h
    cases l2 with
    | nil => simp at h
    | cons y ys =>
      rcases List.mem_cons.1 h with he | hm
      · obtain ⟨rfl, rfl⟩ := Prod.mk.inj he
        exact List.mem_cons_self _ _
      · exact List.mem_cons_of_mem _ (ih hm)

theorem mem_keys_foldl_dictSet {α : Type} (l : List (String × α)) :
    ∀ (acc : List (String × α)) (k : String),
    k ∈ dictKeys (l.foldl (fun acc p => dictSet acc p.1 p.2) acc) ↔
      k ∈ dictKeys acc ∨ k ∈ dictKeys l := by
  induction l with
  | nil => intro acc k; simp [dictKeys]
  | cons p rest ih =>
    intro acc k
    simp only [List.foldl_cons]
    rw [ih (dictSet acc p.1 p.2) k, mem_keys_dictSet]
    simp only [dictKeys, List.map_cons, List.mem_cons]
    tauto

theorem mem_keys_dictOfPairs {α : Type} (l : List (String × α)) (k : String) :
    k ∈ dictKeys (dictOfPairs l) ↔ k ∈ dictKeys l := by
  rw [dictOfPairs, mem_keys_foldl_dictSet]
  simp [dictKeys]

theorem setEq_true_iff (a b : List String) :
    setEq a b = true ↔ ((∀ x ∈ a, x ∈ b) ∧ (∀ x ∈ b, x ∈ a)) := by
  simp [setEq, List.all_eq_true]

theorem dictSet_eq_append {α : Type} (d : List (String × α)) (k : String) (v : α)
    (h : dictHas d k = false) : dictSet d k v = d ++ [(k, v)] := by
  induction d with
  | nil => rfl
  | cons p rest ih =>
    simp only [dictHas, List.any_cons, Bool.or_eq_false_iff] at h
    simp only [dictSet, h.1, Bool.false_eq_true, if_false, List.cons_append]
    rw [ih (by simp [dictHas, h.2])]

theorem coordsOfCombination_ok : ∀ ps : List (Dimension × String),
    (∀ p ∈ ps, p.2 ∈ dictKeys p.1.coordinates) →
    ∃ cs : List (String × Int), coordsOfCombination ps = .ok cs
      ∧ dictKeys cs = ps.map (fun p => p.1.dim_id) := by
  intro ps
  induction ps with
  | nil => intro _; exact ⟨[], rfl, rfl⟩
  | cons p rest ih =>
    intro h
    obtain ⟨dim, value⟩ := p
    have hv : value ∈ dictKeys dim.coordinates := h (dim, value) (List.mem_cons_self _ _)
    have hsome : (dictGet dim.coordinates value).isSome = true :=
      (dictGet_isSome_iff _ _).2 hv
    obtain ⟨c, hc⟩ := Option.isSome_iff_exists.1 hsome
    obtain ⟨cs, hcs, hkeys⟩ := ih (fun q hq => h q (List.mem_cons_of_mem _ hq))
    refine ⟨(dim.dim_id, c) :: cs, ?_, ?_⟩
    · simp only [coordsOfCombination, Dimension.get_coordinate, hc, hcs]
      rfl
    · simp only [dictKeys, List.map_cons]
      rw [show (List.map Prod.fst cs : List String) = dictKeys cs from rfl, hkeys]

theorem dictKeys_append {α : Type} (a b : List (String × α)) :
    dictKeys (a ++ b) = dictKeys a ++ dictKeys b :=
  List.map_append _ _ _

theorem construct_nodes_loop_spec : ∀ (combos : List (List String)) (net : HighDimNetwork),
    (∀ c ∈ combos, c.length = net.dimension_list.length) →
    (∀ c ∈ combos, ∀ p ∈ net.dimension_list.zip c, p.2 ∈ dictKeys p.1.coordinates) →
    (combos.map joinUnderscore).Nodup →
    (∀ c ∈ combos, joinUnderscore c ∉ dictKeys net.graph.nodes) →
    (construct_nodes_loop net (net.dimension_list.map (fun d => d.dim_id)) combos).2 = none
    ∧ dictKeys (construct_nodes_loop net
        (net.dimension_list.map (fun d => d.dim_id)) combos).1.graph.nodes
        = dictKeys net.graph.nodes ++ combos.map joinUnderscore
    ∧ (construct_nodes_loop net (net.dimension_list.map (fun d => d.dim_id))
        combos).1.graph.links = net.graph.links
    ∧ (construct_nodes_loop net (net.dimension_list.map (fun d => d.dim_id))
        combos).1.dimension_list = net.dimension_list
    ∧ (construct_nodes_loop net (net.dimension_list.map (fun d => d.dim_id))
        combos).1.rule_manager = net.rule_manager
    ∧ (construct_nodes_loop net (net.dimension_list.map (fun d => d.dim_id))
        combos).1.dimension_id_list = net.dimension_id_list
    ∧ (construct_nodes_loop net (net.dimension_list.map (fun d => d.dim_id))
        combos).1.node_mapping = net.node_mapping
    ∧ (construct_nodes_loop net (net.dimension_list.map (fun d => d.dim_id))
        combos).1.link_mapping = net.link_mapping := by
  intro combos
  induction combos with
  | nil =>
    intro net _ _ _ _
    exact ⟨rfl, by simp [construct_nodes_loop], rfl, rfl, rfl, rfl, rfl, rfl⟩
  | cons c rest ih =>
    intro net hlen hcoords hnodup hfresh
    have hczip : ∀ p ∈ net.dimension_list.zip c, p.2 ∈ dictKeys p.1.coordinates :=
      hcoords c (List.mem_cons_self _ _)
    obtain ⟨cs, hcs, hcskeys⟩ := coordsOfCombination_ok (net.dimension_list.zip c) hczip
    have hclen : c.length = net.dimension_list.length := hlen c (List.mem_cons_self _ _)
    have hdl : (net.dimension_list.map (fun d => d.dim_id)).length ≤ c.length := by
      simp [hclen]
    have hzipfst : dictKeys ((net.dimension_list.map (fun d => d.dim_id)).zip c)
        = net.dimension_list.map (fun d => d.dim_id) :=
      List.map_fst_zip _ _ hdl
    have hset1 : setEq (net.dimension_list.map (fun d => d.dim_id))
        (dictKeys (dictOfPairs ((net.dimension_list.map (fun d => d.dim_id)).zip c)))
        = true := by
      refine (setEq_true_iff _ _).2 ⟨?_, ?_⟩
      · intro x hx
        rw [mem_keys_dictOfPairs, hzipfst]
        exact hx
      · intro x hx
        rw [mem_keys_dictOfPairs, hzipfst] at hx
        exact hx
    have hcskeys' : dictKeys cs = net.dimension_list.map (fun d => d.dim_id) := by
      rw [hcskeys]
      have h1 : ((net.dimension_list.zip c).map Prod.fst).map (fun d => d.dim_id)
          = (net.dimension_list.zip c).map (fun p => p.1.dim_id) := by
        rw [List.map_map]
        rfl
      rw [← h1, List.map_fst_zip _ _ (by simp [hclen])]
    have hset2 : setEq (net.dimension_list.map (fun d => d.dim_id))
        (dictKeys (dictOfPairs cs)) = true := by
      refine (setEq_true_iff _ _).2 ⟨?_, ?_⟩
      · intro x hx
        rw [mem_keys_dictOfPairs, hcskeys']
        exact hx
      · intro x hx
        rw [mem_keys_dictOfPairs, hcskeys'] at hx
        exact hx
    have hmk : mkNode (joinUnderscore c) (net.dimension_list.map (fun d => d.dim_id))
        (dictOfPairs ((net.dimension_list.map (fun d => d.dim_id)).zip c))
        (dictOfPairs cs)
        [("node_type", PyVal.str "default"),
          ("dimension_count", PyVal.int (net.dimension_list.map (fun d => d.dim_id)).length)]
        = .ok ⟨joinUnderscore c, net.dimension_list.map (fun d => d.dim_id),
            dictOfPairs ((net.dimension_list.map (fun d => d.dim_id)).zip c),
            dictOfPairs cs,
            [("node_type", PyVal.str "default"),
              ("dimension_count", PyVal.int (net.dimension_list.map (fun d => d.dim_id)).length)]⟩ := by
      simp [mkNode, hset1, hset2]
    have hhas : dictHas net.graph.nodes (joinUnderscore c) = false := by
      cases hb : dictHas net.graph.nodes (joinUnderscore c)
      · rfl
      · exact absurd ((dictHas_iff_mem_keys _ _).1 hb)
          (hfresh c (List.mem_cons_self _ _))
    have hadd : net.add_node (joinUnderscore c) (net.dimension_list.map (fun d => d.dim_id))
        (dictOfPairs ((net.dimension_list.map (fun d => d.dim_id)).zip c))
        (dictOfPairs cs)
        [("node_type", PyVal.str "default"),
          ("dimension_count", PyVal.int (net.dimension_list.map (fun d => d.dim_id)).length)]
        = ({ net with graph := { net.graph with
              nodes := net.graph.nodes
                ++ [(joinUnderscore c, ⟨joinUnderscore c,
                      net.dimension_list.map (fun d => d.dim_id),
                      dictOfPairs ((net.dimension_list.map (fun d => d.dim_id)).zip c),
                      dictOfPairs cs,
                      [("node_type", PyVal.str "default"),
                        ("dimension_count",
                          PyVal.int (net.dimension_list.map (fun d => d.dim_id)).length)]⟩)] } },
            none) := by
      simp only [HighDimNetwork.add_node, hmk, Graph.add_node, hhas, Bool.false_eq_true,
        if_false]
      rw [dictSet_eq_append _ _ _ hhas]
    have hstep : construct_nodes_loop net (net.dimension_list.map (fun d => d.dim_id))
        (c :: rest)
        = construct_nodes_loop
            ({ net with graph := { net.graph with
                nodes := net.graph.nodes
                  ++ [(joinUnderscore c, ⟨joinUnderscore c,
                        net.dimension_list.map (fun d => d.dim_id),
                        dictOfPairs ((net.dimension_list.map (fun d => d.dim_id)).zip c),
                        dictOfPairs cs,
                        [("node_type", PyVal.str "default"),
                          ("dimension_count",
                            PyVal.int (net.dimension_list.map (fun d => d.dim_id)).length)]⟩)] } })
            (net.dimension_list.map (fun d => d.dim_id)) rest := by
      simp only [construct_nodes_loop, hcs, hadd]
    rw [hstep]
    have hrec := ih ({ net with graph := { net.graph with
        nodes := net.graph.nodes
          ++ [(joinUnderscore c, ⟨joinUnderscore c,
                net.dimension_list.map (fun d => d.dim_id),
                dictOfPairs ((net.dimension_list.map (fun d => d.dim_id)).zip c),
                dictOfPairs cs,
                [("node_type", PyVal.str "default"),
                  ("dimension_count",
                    PyVal.int (net.dimension_list.map (fun d => d.dim_id)).length)]⟩)] } })
      (fun c' hc' => hlen c' (List.mem_cons_of_mem _ hc'))
      (fun c' hc' => hcoords c' (List.mem_cons_of_mem _ hc'))
      ((List.nodup_cons.1 (by simpa using hnodup)).2)
      (by
        intro c' hc'
        rw [show ({ net with graph := { net.graph with
            nodes := net.graph.nodes
              ++ [(joinUnderscore c, ⟨joinUnderscore c,
                    net.dimension_list.map (fun d => d.dim_id),
                    dictOfPairs ((net.dimension_list.map (fun d => d.dim_id)).zip c),
                    dictOfPairs cs,
                    [("node_type", PyVal.str "default"),
                      ("dimension_count",
                        PyVal.int (net.dimension_list.map (fun d => d.dim_id)).length)]⟩)] } }
            : HighDimNetwork).graph.nodes
            = net.graph.nodes ++ [(joinUnderscore c, ⟨joinUnderscore c,
                net.dimension_list.map (fun d => d.dim_id),
                dictOfPairs ((net.dimension_list.map (fun d => d.dim_id)).zip c),
                dictOfPairs cs,
                [("node_type", PyVal.str "default"),
                  ("dimension_count",
                    PyVal.int (net.dimension_list.map (fun d => d.dim_id)).length)]⟩)]
          from rfl]
        rw [dictKeys_append]
        intro hmem
        rcases List.mem_append.1 hmem with hold | hnew
        · exact hfresh c' (List.mem_cons_of_mem _ hc') hold
        · have : joinUnderscore c' = joinUnderscore c := by simpa [dictKeys] using hnew
          have hne : joinUnderscore c ∉ rest.map joinUnderscore :=
            (List.nodup_cons.1 (by simpa using hnodup)).1
          exact hne (this ▸ List.mem_map.2 ⟨c', hc', rfl⟩))
    refine ⟨hrec.1, ?_, hrec.2.2.1, hrec.2.2.2.1, hrec.2.2.2.2.1, hrec.2.2.2.2.2.1,
      hrec.2.2.2.2.2.2.1, hrec.2.2.2.2.2.2.2⟩
    rw [hrec.2.1]
    rw [show ∀ (x : String × Node),
        dictKeys (net.graph.nodes ++ [x]) = dictKeys net.graph.nodes ++ [x.1] from
      fun x => dictKeys_append _ _]
    simp [List.append_assoc]

theorem forall₂_mem_left {α β : Type} {R : α → β → Prop} :
    ∀ {l1 : List α} {l2 : List β}, List.Forall₂ R l1 l2 → ∀ a ∈ l1, ∃ b ∈ l2, R a b := by
  intro l1 l2 h
  induction h with
  | nil => intro a ha; exact absurd ha (List.not_mem_nil _)
  | cons hr _ ih =>
    intro a ha
    rcases List.mem_cons.1 ha with rfl | hm
    · exact ⟨_, List.mem_cons_self _ _, hr⟩
    · obtain ⟨b, hb, hrb⟩ := ih a hm
      exact ⟨b, List.mem_cons_of_mem _ hb, hrb⟩

theorem cartProd_values_forall₂ {net : HighDimNetwork} {c : List String}
    (hc : c ∈ cartProd (net.dimension_list.map (fun d => d.values))) :
    List.Forall₂ (fun v dim => v ∈ dim.values) c net.dimension_list :=
  List.forall₂_map_right_iff.1 (mem_cartProd.1 hc)

/-- C1 (amended): on a fresh network whose dimensions each have distinct
values none of which contains the id separator `'_'` (and whose
coordinate tables cover their values, as `Dimension.__init__` guarantees),
`construct_nodes` completes without error, the stored node ids are exactly
the Cartesian-product combinations joined by `"_"` in dimension-list
order, the node count equals the product of the dimensions' value-list
lengths, and the node ids are pairwise distinct. -/
theorem C1_cartesian_nodes (net : HighDimNetwork)
    (hstart : net.graph.nodes = [])
    (hvals : ∀ dim ∈ net.dimension_list, dim.values.Nodup)
    (hsep : ∀ dim ∈ net.dimension_list, ∀ v ∈ dim.values, '_' ∉ v.data)
    (hcoords : ∀ dim ∈ net.dimension_list, ∀ v ∈ dim.values, v ∈ dictKeys dim.coordinates) :
    net.construct_nodes.2 = none
    ∧ dictKeys net.construct_nodes.1.graph.nodes
        = (cartProd (net.dimension_list.map (fun d => d.values))).map joinUnderscore
    ∧ (dictKeys net.construct_nodes.1.graph.nodes).length
        = (net.dimension_list.map (fun d => d.values.length)).prod
    ∧ (dictKeys net.construct_nodes.1.graph.nodes).Nodup := by
  have hsepc : ∀ c ∈ cartProd (net.dimension_list.map (fun d => d.values)),
      ∀ v ∈ c, '_' ∉ v.data := by
    intro c hc v hv
    obtain ⟨dim, hdim, hvd⟩ := forall₂_mem_left (cartProd_values_forall₂ hc) v hv
    exact hsep dim hdim v hvd
  have hlenc : ∀ c ∈ cartProd (net.dimension_list.map (fun d => d.values)),
      c.length = net.dimension_list.length := by
    intro c hc
    rw [cartProd_mem_length hc, List.length_map]
  have hnodupc : ((cartProd (net.dimension_list.map (fun d => d.values))).map
      joinUnderscore).Nodup := by
    apply List.Nodup.map_on
    · intro c1 h1 c2 h2 he
      exact joinUnderscore_inj c1 c2 (by rw [hlenc c1 h1, hlenc c2 h2])
        (hsepc c1 h1) (hsepc c2 h2) he
    · exact cartProd_nodup (by
        intro l hl
        rcases List.mem_map.1 hl with ⟨dim, hdim, rfl⟩
        exact hvals dim hdim)
  have hzipc : ∀ c ∈ cartProd (net.dimension_list.map (fun d => d.values)),
      ∀ p ∈ net.dimension_list.zip c, p.2 ∈ dictKeys p.1.coordinates := by
    intro c hc p hp
    obtain ⟨dim, v⟩ := p
    have hvz : (v, dim) ∈ c.zip net.dimension_list := mem_zip_swap hp
    have hf := cartProd_values_forall₂ hc
    have hvin : v ∈ dim.values := (List.forall₂_iff_zip.1 hf).2 hvz
    exact hcoords dim (List.of_mem_zip hp).1 v hvin
  have hfresh : ∀ c ∈ cartProd (net.dimension_list.map (fun d => d.values)),
      joinUnderscore c ∉ dictKeys net.graph.nodes := by
    intro c _
    rw [hstart]
    simp [dictKeys]
  have hloop := construct_nodes_loop_spec
    (cartProd (net.dimension_list.map (fun d => d.values))) net hlenc hzipc hnodupc hfresh
  have hkeys : dictKeys net.construct_nodes.1.graph.nodes
      = (cartProd (net.dimension_list.map (fun d => d.values))).map joinUnderscore := by
    rw [show net.construct_nodes
          = construct_nodes_loop net (net.dimension_list.map (fun d => d.dim_id))
              (cartProd (net.dimension_list.map (fun d => d.values))) from rfl,
      hloop.2.1, hstart]
    rfl
  refine ⟨hloop.1, hkeys, ?_, ?_⟩
  · rw [hkeys, List.length_map, cartProd_length, List.map_map]
    rfl
  · rw [hkeys]
    exact hnodupc

/-- C1 counterexample: both dimensions of `cexNet` have distinct values,
yet `construct_nodes` aborts with a duplicate-node error (two value
tuples join to the same id `"A_B_C"`) and the resulting node count is 3
while the product of the value-list lengths is 4. -/
theorem C1_cartesian_nodes_counterexample :
    (∀ dim ∈ cexNet.dimension_list, dim.values.Nodup)
    ∧ cexNet.construct_nodes.2.isSome = true
    ∧ (dictKeys cexNet.construct_nodes.1.graph.nodes).length = 3
    ∧ (cexNet.dimension_list.map (fun d => d.values.length)).prod = 4 := by
  refine ⟨by decide, ?_, ?_, by decide⟩ <;> rfl

def w1D1 : Dimension := mkDimension "X" ["A", "B"] 0 1

def w1D2 : Dimension := mkDimension "Y" ["p", "q", "r"] 0 1

def w1Net : HighDimNetwork := mkHighDimNetwork "w1" [w1D1, w1D2] ⟨"m", []⟩

theorem C1_cartesian_nodes_witness :
    (w1Net.graph.nodes = []
    ∧ (∀ dim ∈ w1Net.dimension_list, dim.values.Nodup)
    ∧ (∀ dim ∈ w1Net.dimension_list, ∀ v ∈ dim.values, '_' ∉ v.data)
    ∧ (∀ dim ∈ w1Net.dimension_list, ∀ v ∈ dim.values, v ∈ dictKeys dim.coordinates))
    ∧ (w1Net.construct_nodes.2 = none
    ∧ (dictKeys w1Net.construct_nodes.1.graph.nodes).length
        = (w1Net.dimension_list.map (fun d => d.values.length)).prod
    ∧ (dictKeys w1Net.construct_nodes.1.graph.nodes).Nodup) := by
  refine ⟨⟨rfl, by decide, by decide, by decide⟩, ?_⟩
  have h := C1_cartesian_nodes w1Net rfl (by decide) (by decide) (by decide)
  exact ⟨h.1, h.2.2.1, h.2.2.2⟩

theorem dictGet_dictSet {α : Type} (d : List (String × α)) (k : String) (v : α) (k' : String) :
    dictGet (dictSet d k v) k' = if k' = k then some v else dictGet d k' := by
  induction d with
  | nil =>
    rw [show dictSet ([] : List (String × α)) k v = [(k, v)] from rfl, dictGet_cons]
    by_cases h : k' = k
    · simp [h]
    · rw [if_neg (fun he => h he.symm), if_neg h]
  | cons p rest ih =>
    by_cases hpk : p.1 = k
    · rw [show dictSet (p :: rest) k v = (k, v) :: rest from by
        simp [dictSet, beq_iff_eq.2 hpk]]
      rw [dictGet_cons, dictGet_cons]
      by_cases h : k' = k
      · simp [h]
      · rw [if_neg (fun he => h he.symm), if_neg h,
          if_neg (fun he : p.1 = k' => h (hpk.symm.trans he).symm)]
    · rw [show dictSet (p :: rest) k v = p :: dictSet rest k v from by
        simp [dictSet, beq_eq_false_iff_ne.2 hpk]]
      rw [dictGet_cons, dictGet_cons, ih]
      by_cases hp : p.1 = k'
      · have : ¬ k' = k := fun he => hpk (hp.trans he)
        simp [hp, this]
      · simp [hp]

theorem dictGet_append {α : Type} (a b : List (String × α)) (k : String) :
    dictGet (a ++ b) k =
      match dictGet a k with
      | some v => some v
      | none => dictGet b k := by
  induction a with
  | nil => simp [dictGet]
  | cons p rest ih =>
    rw [List.cons_append, dictGet_cons, dictGet_cons]
    by_cases h : p.1 = k
    · simp [h]
    · simp only [if_neg h]
      exact ih

theorem dictGet_foldl_dictSet {α : Type} (l : List (String × α)) :
    ∀ (acc : List (String × α)) (k : String),
    dictGet (l.foldl (fun acc p => dictSet acc p.1 p.2) acc) k =
      match dictGet l.reverse k with
      | some v => some v
      | none => dictGet acc k := by
  induction l with
  | nil => intro acc k; simp [dictGet]
  | cons p rest ih =>
    intro acc k
    simp only [List.foldl_cons, List.reverse_cons]
    rw [ih (dictSet acc p.1 p.2) k, dictGet_append, dictGet_dictSet]
    cases hr : dictGet rest.reverse k with
    | some v => simp [hr]
    | none =>
      simp only [hr]
      rw [dictGet_cons]
      by_cases h : p.1 = k
      · simp [h]
      · rw [if_neg h, if_neg (fun he : k = p.1 => h he.symm)]
        simp [dictGet]

theorem dictGet_dictOfPairs {α : Type} (l : List (String × α)) (k : String) :
    dictGet (dictOfPairs l) k = dictGet l.reverse k := by
  rw [dictOfPairs, dictGet_foldl_dictSet]
  cases hr : dictGet l.reverse k with
  | some v => rfl
  | none => simp [dictGet]

theorem dictGet_eq_some_of_mem {α : Type} {d : List (String × α)}
    (hnd : (dictKeys d).Nodup) {k : String} {v : α} (hm : (k, v) ∈ d) :
    dictGet d k = some v := by
  induction d with
  | nil => exact absurd hm (List.not_mem_nil _)
  | cons p rest ih =>
    have hnd' : (p.1 :: dictKeys rest).Nodup := hnd
    rcases List.mem_cons.1 hm with rfl | hm'
    · simp [dictGet_cons]
    · rw [dictGet_cons]
      have hk : k ∈ dictKeys rest := List.mem_map.2 ⟨(k, v), hm', rfl⟩
      have hp1 : p.1 ≠ k := by
        intro he
        exact (List.nodup_cons.1 hnd').1 (he ▸ hk)
      rw [if_neg hp1]
      exact ih (List.nodup_cons.1 hnd').2 hm'

theorem mem_of_dictGet_eq_some {α : Type} {d : List (String × α)} {k : String} {v : α}
    (h : dictGet d k = some v) : (k, v) ∈ d := by
  induction d with
  | nil => simp [dictGet] at h
  | cons p rest ih =>
    rw [dictGet_cons] at h
    by_cases hp : p.1 = k
    · rw [if_pos hp] at h
      obtain rfl := Option.some.inj h
      obtain ⟨p1, p2⟩ := p
      obtain rfl : p1 = k := hp
      exact List.mem_cons_self _ _
    · rw [if_neg hp] at h
      exact List.mem_cons_of_mem _ (ih h)

theorem dictKeys_dictSet_nodup {α : Type} {d : List (String × α)} (k : String) (v : α)
    (h : (dictKeys d).Nodup) : (dictKeys (dictSet d k v)).Nodup := by
  induction d with
  | nil => simp [dictSet, dictKeys]
  | cons p rest ih =>
    have h' : (p.1 :: dictKeys rest).Nodup := h
    obtain ⟨hp, hrest⟩ := List.nodup_cons.1 h'
    by_cases hpk : p.1 = k
    · rw [show dictSet (p :: rest) k v = (k, v) :: rest from by
        simp [dictSet, beq_iff_eq.2 hpk]]
      have : (k :: dictKeys rest).Nodup :=
        List.nodup_cons.2 ⟨fun hm => hp (hpk ▸ hm), hrest⟩
      exact this
    · rw [show dictSet (p :: rest) k v = p :: dictSet rest k v from by
        simp [dictSet, beq_eq_false_iff_ne.2 hpk]]
      have : (p.1 :: dictKeys (dictSet rest k v)).Nodup := by
        refine List.nodup_cons.2 ⟨?_, ih hrest⟩
        intro hm
        rcases (mem_keys_dictSet rest k v p.1).1 hm with he | hm'
        · exact hpk he
        · exact hp hm'
      exact this

theorem dictKeys_dictOfPairs_nodup {α : Type} (l : List (String × α)) :
    (dictKeys (dictOfPairs l)).Nodup := by
  have haux : ∀ (l' : List (String × α)) (acc : List (String × α)),
      (dictKeys acc).Nodup →
      (dictKeys (l'.foldl (fun acc p => dictSet acc p.1 p.2) acc)).Nodup := by
    intro l'
    induction l' with
    | nil => intro acc h; exact h
    | cons p rest ih =>
      intro acc h
      exact ih (dictSet acc p.1 p.2) (dictKeys_dictSet_nodup p.1 p.2 h)
  exact haux l [] (by simp [dictKeys])

theorem dictOfPairs_entries_sub {α : Type} (l : List (String × α)) :
    ∀ e ∈ dictOfPairs l, e ∈ l := by
  have hset : ∀ (d : List (String × α)) (k : String) (v : α) (e : String × α),
      e ∈ dictSet d k v → e ∈ d ∨ e = (k, v) := by
    intro d k v
    induction d with
    | nil => intro e he; simp [dictSet] at he; exact Or.inr he
    | cons p rest ih =>
      intro e he
      by_cases hpk : p.1 = k
      · rw [show dictSet (p :: rest) k v = (k, v) :: rest from by
          simp [dictSet, beq_iff_eq.2 hpk]] at he
        rcases List.mem_cons.1 he with rfl | hm
        · exact Or.inr rfl
        · exact Or.inl (List.mem_cons_of_mem _ hm)
      · rw [show dictSet (p :: rest) k v = p :: dictSet rest k v from by
          simp [dictSet, beq_eq_false_iff_ne.2 hpk]] at he
        rcases List.mem_cons.1 he with rfl | hm
        · exact Or.inl (List.mem_cons_self _ _)
        · rcases ih e hm with h | h
          · exact Or.inl (List.mem_cons_of_mem _ h)
          · exact Or.inr h
  have haux : ∀ (l' : List (String × α)) (acc : List (String × α)) (e : String × α),
      e ∈ l'.foldl (fun acc p => dictSet acc p.1 p.2) acc → e ∈ acc ∨ e ∈ l' := by
    intro l'
    induction l' with
    | nil => intro acc e he; exact Or.inl he
    | cons p rest ih =>
      intro acc e he
      rcases ih (dictSet acc p.1 p.2) e he with h | h
      · rcases hset acc p.1 p.2 e h with h' | h'
        · exact Or.inl h'
        · exact Or.inr (h' ▸ List.mem_cons_self _ _)
      · exact Or.inr (List.mem_cons_of_mem _ h)
  intro e he
  rcases haux l [] e he with h | h
  · exact absurd h (List.not_mem_nil _)
  · exact h

/-- The two `for rule_id, rule in ...items(): if rule_id not in
combined...: combined....add_link_rule(rule)` loops of `merge_networks`. -/
def addRulesLoop : NetworkRuleManager → List (String × NetworkRule) → NetworkRuleManager
  | m, [] => m
  | m, (rid, rule) :: rest =>
    if dictHas m.link_rules rid then addRulesLoop m rest
    else addRulesLoop (m.add_link_rule rule).1 rest

/-- The merged dimension list of `merge_networks`:
`list({dim.dim_id: dim for dim in (self.dimension_list + other.dimension_list)}.values())`. -/
def mergedDimensionList (a b : List Dimension) : List Dimension :=
  dictValues (dictOfPairs ((a ++ b).map (fun d => (d.dim_id, d))))

/-- The combined rule manager of `merge_networks`: self's composites
first, then other's, skipping colliding ids. -/
def combinedRuleManager (self other : HighDimNetwork) : NetworkRuleManager :=
  addRulesLoop
    (addRulesLoop
      ⟨self.network_id ++ "_" ++ other.network_id ++ "_rules", []⟩
      self.rule_manager.link_rules)
    other.rule_manager.link_rules

/-- `HighDimNetwork.merge_networks`: validate shared dimensions, merge
dimensions and rules, then regenerate the merged network with
`construct_network`. -/
def HighDimNetwork.merge_networks (self other : HighDimNetwork)
    (merge_dimensions : List String) : Except String (HighDimNetwork × Option String) :=
  let shared_dims := merge_dimensions.filter
    (fun dim => self.dimension_id_list.contains dim && other.dimension_id_list.contains dim)
  if shared_dims.isEmpty then
    .error "No shared dimensions found for merging."
  else
    .ok (HighDimNetwork.construct_network (mkHighDimNetwork
      (self.network_id ++ "_" ++ other.network_id)
      (mergedDimensionList self.dimension_list other.dimension_list)
      (combinedRuleManager self other)))

theorem dictGet_eq_none_of_not_has {α : Type} {d : List (String × α)} {k : String}
    (h : dictHas d k = false) : dictGet d k = none := by
  cases hg : dictGet d k with
  | none => rfl
  | some v =>
    have hm : k ∈ dictKeys d := (dictGet_isSome_iff _ _).1 (by simp [hg])
    rw [(dictHas_iff_mem_keys _ _).2 hm] at h
    exact absurd h (by simp)

theorem exists_dictGet_of_has {α : Type} {d : List (String × α)} {k : String}
    (h : dictHas d k = true) : ∃ v, dictGet d k = some v := by
  have hm : k ∈ dictKeys d := (dictHas_iff_mem_keys _ _).1 h
  obtain ⟨v, hv⟩ := Option.isSome_iff_exists.1 ((dictGet_isSome_iff _ _).2 hm)
  exact ⟨v, hv⟩

theorem addRulesLoop_get : ∀ (rules : List (String × NetworkRule)) (m : NetworkRuleManager)
    (k : String), (∀ p ∈ rules, p.2.rule_id = p.1) →
    dictGet (addRulesLoop m rules).link_rules k =
      match dictGet m.link_rules k with
      | some r => some r
      | none => dictGet rules k := by
  intro rules
  induction rules with
  | nil =>
    intro m k _
    show dictGet m.link_rules k = match dictGet m.link_rules k with
      | some r => some r
      | none => dictGet ([] : List (String × NetworkRule)) k
    cases hg : dictGet m.link_rules k
    · rfl
    · rfl
  | cons p rest ih =>
    intro m k hcons
    obtain ⟨rid, rule⟩ := p
    have hrid : rule.rule_id = rid := hcons (rid, rule) (List.mem_cons_self _ _)
    by_cases hh : dictHas m.link_rules rid = true
    · rw [show addRulesLoop m ((rid, rule) :: rest) = addRulesLoop m rest from by
        simp [addRulesLoop, hh]]
      rw [ih m k (fun q hq => hcons q (List.mem_cons_of_mem _ hq))]
      by_cases hk : k = rid
      · subst hk
        obtain ⟨r, hr⟩ := exists_dictGet_of_has hh
        simp [hr]
      · rw [show dictGet ((rid, rule) :: rest) k = dictGet rest k from by
          rw [dictGet_cons, if_neg (fun he => hk he.symm)]]
    · have hh' : dictHas m.link_rules rid = false := by
        cases hb : dictHas m.link_rules rid
        · rfl
        · exact absurd hb hh
      have haddeq : (m.add_link_rule rule).1
          = { m with link_rules := dictSet m.link_rules rid rule } := by
        simp [NetworkRuleManager.add_link_rule, hrid, hh']
      rw [show addRulesLoop m ((rid, rule) :: rest)
            = addRulesLoop (m.add_link_rule rule).1 rest from by
        simp [addRulesLoop, hh'], haddeq]
      rw [ih _ k (fun q hq => hcons q (List.mem_cons_of_mem _ hq))]
      have hget : dictGet (dictSet m.link_rules rid rule) k
          = if k = rid then some rule else dictGet m.link_rules k := dictGet_dictSet _ _ _ _
      by_cases hk : k = rid
      · subst hk
        rw [hget, if_pos rfl, dictGet_eq_none_of_not_has hh']
        simp [dictGet_cons]
      · rw [hget, if_neg hk]
        rw [show dictGet ((rid, rule) :: rest) k = dictGet rest k from by
          rw [dictGet_cons, if_neg (fun he => hk he.symm)]]

theorem add_node_fields (net : HighDimNetwork) (a : String) (b : List String)
    (c : List (String × String)) (d : List (String × Int)) (e : List (String × PyVal)) :
    (net.add_node a b c d e).1.dimension_list = net.dimension_list
    ∧ (net.add_node a b c d e).1.rule_manager = net.rule_manager
    ∧ (net.add_node a b c d e).1.dimension_id_list = net.dimension_id_list := by
  unfold HighDimNetwork.add_node
  cases hmk : mkNode a b c d e with
  | error msg => exact ⟨rfl, rfl, rfl⟩
  | ok n =>
    rcases hadd : net.graph.add_node n with ⟨g, err⟩
    simp [hadd]

theorem add_link_fields (net : HighDimNetwork) (s t : String) (lid : Option String)
    (attrs : List (String × PyVal)) :
    (net.add_link s t lid attrs).1.dimension_list = net.dimension_list
    ∧ (net.add_link s t lid attrs).1.rule_manager = net.rule_manager
    ∧ (net.add_link s t lid attrs).1.dimension_id_list = net.dimension_id_list := by
  unfold HighDimNetwork.add_link
  rcases hadd : net.graph.add_link ⟨lid.getD (s ++ "_" ++ t), s, t, attrs⟩ with ⟨g, err⟩
  simp [hadd]

theorem construct_nodes_loop_fields : ∀ (combos : List (List String))
    (net : HighDimNetwork) (dl : List String),
    (construct_nodes_loop net dl combos).1.dimension_list = net.dimension_list
    ∧ (construct_nodes_loop net dl combos).1.rule_manager = net.rule_manager
    ∧ (construct_nodes_loop net dl combos).1.dimension_id_list = net.dimension_id_list := by
  intro combos
  induction combos with
  | nil => intro net dl; exact ⟨rfl, rfl, rfl⟩
  | cons c rest ih =>
    intro net dl
    show (construct_nodes_loop net dl (c :: rest)).1.dimension_list = net.dimension_list ∧ _
    simp only [construct_nodes_loop]
    cases hco : coordsOfCombination (net.dimension_list.zip c) with
    | error msg => exact ⟨rfl, rfl, rfl⟩
    | ok cs =>
      rcases hadd : net.add_node (joinUnderscore c) dl (dictOfPairs (dl.zip c))
          (dictOfPairs cs)
          [("node_type", PyVal.str "default"), ("dimension_count", PyVal.int dl.length)]
        with ⟨net', err⟩
      have hf := add_node_fields net (joinUnderscore c) dl (dictOfPairs (dl.zip c))
        (dictOfPairs cs)
        [("node_type", PyVal.str "default"), ("dimension_count", PyVal.int dl.length)]
      rw [hadd] at hf
      cases err with
      | none =>
        simp only [hadd]
        obtain ⟨h1, h2, h3⟩ := ih net' dl
        exact ⟨h1.trans hf.1, h2.trans hf.2.1, h3.trans hf.2.2⟩
      | some msg =>
        simp only [hadd]
        exact hf

theorem construct_links_loop_fields : ∀ (pairs : List (String × String))
    (net : HighDimNetwork),
    (construct_links_loop net pairs).1.dimension_list = net.dimension_list
    ∧ (construct_links_loop net pairs).1.rule_manager = net.rule_manager
    ∧ (construct_links_loop net pairs).1.dimension_id_list = net.dimension_id_list := by
  intro pairs
  induction pairs with
  | nil => intro net; exact ⟨rfl, rfl, rfl⟩
  | cons pr rest ih =>
    intro net
    obtain ⟨s, t⟩ := pr
    simp only [construct_links_loop]
    by_cases hst : (s == t) = true
    · simp only [hst, if_true]
      exact ih net
    · simp only [Bool.not_eq_true] at hst
      simp only [hst, Bool.false_eq_true, if_false]
      by_cases hval : net.rule_manager.validate_link net.dimension_id_list
          (((dictGet net.graph.nodes s).getD defaultNode).dim_values_dic)
          (((dictGet net.graph.nodes t).getD defaultNode).dim_values_dic) = true
      · simp only [hval, if_true]
        rcases hadd : net.add_link s t none [] with ⟨net', err⟩
        have hf := add_link_fields net s t none []
        rw [hadd] at hf
        cases err with
        | none =>
          simp only [hadd]
          obtain ⟨h1, h2, h3⟩ := ih net'
          exact ⟨h1.trans hf.1, h2.trans hf.2.1, h3.trans hf.2.2⟩
        | some msg =>
          simp only [hadd]
          exact hf
      · simp only [Bool.not_eq_true] at hval
        simp only [hval, Bool.false_eq_true, if_false]
        exact ih net

theorem construct_network_fields (net : HighDimNetwork) :
    net.construct_network.1.dimension_list = net.dimension_list
    ∧ net.construct_network.1.rule_manager = net.rule_manager
    ∧ net.construct_network.1.dimension_id_list = net.dimension_id_list := by
  unfold HighDimNetwork.construct_network
  rcases hn : net.construct_nodes with ⟨net1, err⟩
  have hf : net1.dimension_list = net.dimension_list
      ∧ net1.rule_manager = net.rule_manager
      ∧ net1.dimension_id_list = net.dimension_id_list := by
    have := construct_nodes_loop_fields
      (cartProd (net.dimension_list.map (fun d => d.values))) net
      (net.dimension_list.map (fun d => d.dim_id))
    rw [show construct_nodes_loop net (net.dimension_list.map (fun d => d.dim_id))
          (cartProd (net.dimension_list.map (fun d => d.values)))
        = net.construct_nodes from rfl, hn] at this
    exact this
  cases err with
  | some msg => exact hf
  | none =>
    obtain ⟨h1, h2, h3⟩ := construct_links_loop_fields
      (linkPairs (dictKeys net1.graph.nodes)) net1
    exact ⟨h1.trans hf.1, h2.trans hf.2.1, h3.trans hf.2.2⟩

/-- C5: on an id collision, the merged dimension list keeps the second
operand's (other's) Dimension, while the merged rule manager keeps the
first operand's (self's) composite; a successful `merge_networks` builds
its network from exactly these merged collections. -/
theorem C5_merge_precedence (self other : HighDimNetwork) (merge_dimensions : List String)
    (y rid : String) (da db : Dimension) (r1 r2 : NetworkRule)
    (handa : (self.dimension_list.map (fun d => d.dim_id)).Nodup)
    (handb : (other.dimension_list.map (fun d => d.dim_id)).Nodup)
    (hda : da ∈ self.dimension_list) (hday : da.dim_id = y)
    (hdb : db ∈ other.dimension_list) (hdby : db.dim_id = y)
    (hsk : ∀ p ∈ self.rule_manager.link_rules, p.2.rule_id = p.1)
    (hok : ∀ p ∈ other.rule_manager.link_rules, p.2.rule_id = p.1)
    (hsnd : (dictKeys self.rule_manager.link_rules).Nodup)
    (hr1 : (rid, r1) ∈ self.rule_manager.link_rules)
    (hr2 : (rid, r2) ∈ other.rule_manager.link_rules) :
    (db ∈ mergedDimensionList self.dimension_list other.dimension_list
      ∧ (∀ d ∈ mergedDimensionList self.dimension_list other.dimension_list,
          d.dim_id = y → d = db))
    ∧ dictGet (combinedRuleManager self other).link_rules rid = some r1
    ∧ (∀ (net' : HighDimNetwork) (e : Option String),
        self.merge_networks other merge_dimensions = .ok (net', e) →
        net'.dimension_list = mergedDimensionList self.dimension_list other.dimension_list
        ∧ net'.rule_manager = combinedRuleManager self other) := by
  have hpairs : ∀ e ∈ (self.dimension_list ++ other.dimension_list).map
      (fun d => (d.dim_id, d)), e.1 = e.2.dim_id := by
    intro e he
    rcases List.mem_map.1 he with ⟨d, _, rfl⟩
    rfl
  have hga : dictGet (dictOfPairs ((self.dimension_list ++ other.dimension_list).map
      (fun d => (d.dim_id, d)))) y = some db := by
    rw [dictGet_dictOfPairs]
    rw [List.map_append, List.reverse_append, dictGet_append]
    have hbmem : (y, db) ∈ (other.dimension_list.map (fun d => (d.dim_id, d))).reverse := by
      rw [List.mem_reverse]
      exact List.mem_map.2 ⟨db, hdb, by rw [hdby]⟩
    have hbnd : (dictKeys ((other.dimension_list.map
        (fun d => (d.dim_id, d))).reverse)).Nodup := by
      have he : dictKeys ((other.dimension_list.map (fun d => (d.dim_id, d))).reverse)
          = ((other.dimension_list.map (fun d => (d.dim_id, d))).map Prod.fst).reverse := by
        simp [dictKeys]
      rw [he, List.nodup_reverse, List.map_map]
      exact handb
    rw [dictGet_eq_some_of_mem hbnd hbmem]
  have hmem : (y, db) ∈ dictOfPairs ((self.dimension_list ++ other.dimension_list).map
      (fun d => (d.dim_id, d))) := mem_of_dictGet_eq_some hga
  refine ⟨⟨List.mem_map.2 ⟨(y, db), hmem, rfl⟩, ?_⟩, ?_, ?_⟩
  · intro d hd hdy
    rcases List.mem_map.1 hd with ⟨e, he, rfl⟩
    have hekey : e.1 = e.2.dim_id := hpairs e (dictOfPairs_entries_sub _ e he)
    have hey : e = (y, e.2) := by
      rw [show e = (e.1, e.2) from rfl]
      rw [hekey, hdy]
    have hkinj := keyInj (dictKeys_dictOfPairs_nodup
      ((self.dimension_list ++ other.dimension_list).map (fun d => (d.dim_id, d))))
      e he (y, db) hmem
    have : e = (y, db) := hkinj (by rw [hekey, hdy])
    rw [this]
  · rw [combinedRuleManager, addRulesLoop_get other.rule_manager.link_rules _ rid hok,
      addRulesLoop_get self.rule_manager.link_rules _ rid hsk]
    rw [show dictGet (⟨self.network_id ++ "_" ++ other.network_id ++ "_rules", []⟩
          : NetworkRuleManager).link_rules rid = none from rfl]
    rw [dictGet_eq_some_of_mem hsnd hr1]
  · intro net' e hmerge
    unfold HighDimNetwork.merge_networks at hmerge
    by_cases hsh : (merge_dimensions.filter
        (fun dim => self.dimension_id_list.contains dim
          && other.dimension_id_list.contains dim)).isEmpty = true
    · rw [if_pos hsh] at hmerge
      exact absurd hmerge (by simp)
    · rw [if_neg hsh] at hmerge
      have hpair := Except.ok.inj hmerge
      have hnet' : net' = (HighDimNetwork.construct_network (mkHighDimNetwork
          (self.network_id ++ "_" ++ other.network_id)
          (mergedDimensionList self.dimension_list other.dimension_list)
          (combinedRuleManager self other))).1 :=
        congrArg Prod.fst hpair.symm
      obtain ⟨h1, h2, _⟩ := construct_network_fields (mkHighDimNetwork
        (self.network_id ++ "_" ++ other.network_id)
        (mergedDimensionList self.dimension_list other.dimension_list)
        (combinedRuleManager self other))
      rw [hnet', h1, h2]
      exact ⟨rfl, rfl⟩

def c5SelfNet : HighDimNetwork :=
  mkHighDimNetwork "s" [mkDimension "X" ["A"] 0 1, mkDimension "Y" ["u", "v"] 0 1]
    ⟨"ms", [("r1", ⟨"r1", ["X"], []⟩)]⟩

def c5OtherNet : HighDimNetwork :=
  mkHighDimNetwork "o" [mkDimension "Y" ["w"] 5 2]
    ⟨"mo", [("r1", ⟨"r1", ["Y"], []⟩)]⟩

theorem C5_merge_precedence_witness :
    ((mkDimension "Y" ["w"] 5 2) ∈
        mergedDimensionList c5SelfNet.dimension_list c5OtherNet.dimension_list
      ∧ dictGet (combinedRuleManager c5SelfNet c5OtherNet).link_rules "r1"
          = some ⟨"r1", ["X"], []⟩) := by
  have h := C5_merge_precedence c5SelfNet c5OtherNet ["Y"] "Y" "r1"
    (mkDimension "Y" ["u", "v"] 0 1) (mkDimension "Y" ["w"] 5 2)
    ⟨"r1", ["X"], []⟩ ⟨"r1", ["Y"], []⟩
    (by decide) (by decide)
    (by right; exact List.mem_singleton.2 rfl) (by decide)
    (List.mem_singleton.2 rfl) (by decide)
    (by intro p hp; rcases List.mem_singleton.1 hp with rfl; rfl)
    (by intro p hp; rcases List.mem_singleton.1 hp with rfl; rfl)
    (by decide)
    (List.mem_singleton.2 rfl) (List.mem_singleton.2 rfl)
  exact ⟨h.1.1, h.2.1⟩

theorem filter_length_eq_iff {α : Type} (l : List α) (p : α → Bool) :
    (l.filter p).length = l.length ↔ ∀ a ∈ l, p a = true := by
  induction l with
  | nil => simp
  | cons x xs ih =>
    by_cases hx : p x = true
    · simp [hx, ih]
    · have hle : (xs.filter p).length ≤ xs.length := List.length_filter_le _ _
      have hx' : p x = false := by
        cases hb : p x
        · rfl
        · exact absurd hb hx
      simp only [List.filter_cons, hx', Bool.false_eq_true, if_false, List.length_cons]
      constructor
      · intro h
        omega
      · intro h
        exact absurd (h x (List.mem_cons_self _ _)) hx

theorem filterMap_congr {α β : Type} (l : List α) (f g : α → Option β)
    (h : ∀ a ∈ l, f a = g a) : l.filterMap f = l.filterMap g := by
  induction l with
  | nil => rfl
  | cons x xs ih =>
    rw [List.filterMap_cons, List.filterMap_cons,
      h x (List.mem_cons_self _ _), ih (fun a ha => h a (List.mem_cons_of_mem _ ha))]

theorem dictOfPairs_eq_self {α : Type} (l : List (String × α))
    (h : (dictKeys l).Nodup) : dictOfPairs l = l := by
  have haux : ∀ (l' : List (String × α)) (acc : List (String × α)),
      (dictKeys l').Nodup → (∀ k ∈ dictKeys l', dictHas acc k = false) →
      l'.foldl (fun acc p => dictSet acc p.1 p.2) acc = acc ++ l' := by
    intro l'
    induction l' with
    | nil => intro acc _ _; simp
    | cons p rest ih =>
      intro acc hnd hfresh
      have hnd' : (p.1 :: dictKeys rest).Nodup := hnd
      simp only [List.foldl_cons]
      rw [dictSet_eq_append _ _ _ (hfresh p.1 (List.mem_cons_self _ _))]
      rw [ih (acc ++ [(p.1, p.2)]) (List.nodup_cons.1 hnd').2 ?_]
      · simp
      · intro k hk
        have h1 : dictHas acc k = false := hfresh k (List.mem_cons_of_mem _ hk)
        have h2 : p.1 ≠ k := by
          intro he
          exact (List.nodup_cons.1 hnd').1 (he ▸ hk)
        cases hb : dictHas (acc ++ [(p.1, p.2)]) k
        · rfl
        · exfalso
          have := (dictHas_iff_mem_keys _ _).1 hb
          rw [dictKeys_append] at this
          rcases List.mem_append.1 this with hm | hm
          · rw [(dictHas_iff_mem_keys _ _).2 hm] at h1
            exact absurd h1 (by simp)
          · simp only [dictKeys, List.map] at hm
            rcases List.mem_singleton.1 hm with rfl
            exact h2 rfl
  have := haux l [] h (by intro k _; rfl)
  rw [dictOfPairs, this]
  simp

/-- One projected node: `{"node_id": ..., "coordinates": {...}}`. The
coordinate values are `Option Int` because `get_coords_value` is
Python `.get(dim, None)`. -/
structure ProjNode where
  node_id : String
  coordinates : List (String × Option Int)
deriving DecidableEq, Repr

/-- One projected link with its two endpoint projections. -/
structure ProjLink where
  link_id : String
  source : ProjNode
  target : ProjNode
deriving DecidableEq, Repr

/-- The `{"nodes": ..., "links": ...}` value returned by
`project_to_dimensions`. -/
structure ProjResult where
  nodes : List ProjNode
  links : List ProjLink
deriving DecidableEq, Repr

/-- The per-node dict comprehension of `project_to_dimensions`:
`{dim: node.get_coords_value(dim) for dim in dimension_list if dim in node.dim_list}`. -/
def projectedCoordinates (n : Node) (dimension_list : List String) :
    List (String × Option Int) :=
  dictOfPairs ((dimension_list.filter (fun dim => n.dim_list.contains dim)).map
    (fun dim => (dim, n.get_coords_value dim)))

/-- `Graph.project_to_dimensions`: raise unless every requested dimension
is one of the graph's; keep each node (and each link via both endpoints)
only when its projected coordinate dict covers the whole request. -/
def Graph.project_to_dimensions (g : Graph) (dimension_list : List String) :
    Except String ProjResult :=
  if ¬ (dimension_list.all (fun dim => g.dimension_id_list.contains dim)) then
    .error "Some dimensions in the input list are not part of the graph's dimensions."
  else
    .ok
      ⟨(g.nodes.map Prod.snd).filterMap (fun node =>
          if (projectedCoordinates node dimension_list).length = dimension_list.length then
            some ⟨node.node_id, projectedCoordinates node dimension_list⟩
          else none),
        (g.links.map Prod.snd).filterMap (fun link =>
          if (projectedCoordinates ((dictGet g.nodes link.source).getD defaultNode)
                dimension_list).length = dimension_list.length
              ∧ (projectedCoordinates ((dictGet g.nodes link.target).getD defaultNode)
                dimension_list).length = dimension_list.length then
            some ⟨link.link_id,
              ⟨link.source,
                projectedCoordinates ((dictGet g.nodes link.source).getD defaultNode)
                  dimension_list⟩,
              ⟨link.target,
                projectedCoordinates ((dictGet g.nodes link.target).getD defaultNode)
                  dimension_list⟩⟩
          else none)⟩

theorem dictKeys_map_pair {β : Type} (l : List String) (g : String → β) :
    dictKeys (l.map (fun d => (d, g d))) = l := by
  rw [dictKeys, List.map_map,
    show (Prod.fst ∘ fun d => (d, g d)) = fun d => d from funext (fun d => rfl)]
  exact List.map_id' l

theorem projectedCoordinates_of_all (n : Node) (req : List String) (hnd : req.Nodup)
    (h : ∀ d ∈ req, d ∈ n.dim_list) :
    projectedCoordinates n req = req.map (fun d => (d, n.get_coords_value d)) := by
  have hfilter : req.filter (fun dim => n.dim_list.contains dim) = req :=
    List.filter_eq_self.2 (by
      intro a ha
      simpa using h a ha)
  rw [projectedCoordinates, hfilter]
  apply dictOfPairs_eq_self
  rw [dictKeys_map_pair]
  exact hnd

theorem projectedCoordinates_length_eq_iff (n : Node) (req : List String) (hnd : req.Nodup) :
    ((projectedCoordinates n req).length = req.length ↔ ∀ d ∈ req, d ∈ n.dim_list) := by
  constructor
  · intro h
    have hkeysnd : (dictKeys ((req.filter (fun dim => n.dim_list.contains dim)).map
        (fun dim => (dim, n.get_coords_value dim)))).Nodup := by
      rw [dictKeys_map_pair]
      exact hnd.filter _
    rw [projectedCoordinates, dictOfPairs_eq_self _ hkeysnd, List.length_map] at h
    have := (filter_length_eq_iff req (fun dim => n.dim_list.contains dim)).1 h
    intro d hd
    simpa using this d hd
  · intro h
    rw [projectedCoordinates_of_all n req hnd h, List.length_map]

/-- C9: `project_to_dimensions` fails iff some requested dimension id is
not among the graph's dimension ids; on success it returns, for exactly
the nodes carrying every requested dimension, the node id paired with the
request-ordered restriction of its coordinate map, and, for each link,
the same restricted maps of its two endpoints exactly when both endpoints
qualify. (The result is a plain value: the embedding is purely
functional, so no reference into the source graph exists by
construction.) -/
theorem C9_projection (g : Graph) (req : List String) (hnd : req.Nodup) :
    (¬ (∀ d ∈ req, d ∈ g.dimension_id_list) →
      g.project_to_dimensions req
        = .error "Some dimensions in the input list are not part of the graph's dimensions.")
    ∧ ((∀ d ∈ req, d ∈ g.dimension_id_list) →
      g.project_to_dimensions req = .ok
        ⟨(g.nodes.map Prod.snd).filterMap (fun node =>
            if ∀ d ∈ req, d ∈ node.dim_list then
              some ⟨node.node_id, req.map (fun d => (d, node.get_coords_value d))⟩
            else none),
          (g.links.map Prod.snd).filterMap (fun link =>
            if (∀ d ∈ req, d ∈ ((dictGet g.nodes link.source).getD defaultNode).dim_list)
                ∧ (∀ d ∈ req, d ∈ ((dictGet g.nodes link.target).getD defaultNode).dim_list)
              then
              some ⟨link.link_id,
                ⟨link.source, req.map (fun d =>
                  (d, ((dictGet g.nodes link.source).getD defaultNode).get_coords_value d))⟩,
                ⟨link.target, req.map (fun d =>
                  (d, ((dictGet g.nodes link.target).getD defaultNode).get_coords_value d))⟩⟩
            else none)⟩) := by
  have hnodes : (g.nodes.map Prod.snd).filterMap (fun node =>
      if (projectedCoordinates node req).length = req.length then
        some ⟨node.node_id, projectedCoordinates node req⟩
      else none)
      = (g.nodes.map Prod.snd).filterMap (fun node =>
        if ∀ d ∈ req, d ∈ node.dim_list then
          (some ⟨node.node_id, req.map (fun d => (d, node.get_coords_value d))⟩ : Option ProjNode)
        else none) := by
    apply filterMap_congr
    intro node _
    by_cases hq : ∀ d ∈ req, d ∈ node.dim_list
    · rw [if_pos ((projectedCoordinates_length_eq_iff node req hnd).2 hq), if_pos hq,
        projectedCoordinates_of_all node req hnd hq]
    · rw [if_neg (fun hl => hq ((projectedCoordinates_length_eq_iff node req hnd).1 hl)),
        if_neg hq]
  have hlinks : (g.links.map Prod.snd).filterMap (fun link =>
      if (projectedCoordinates ((dictGet g.nodes link.source).getD defaultNode)
            req).length = req.length
          ∧ (projectedCoordinates ((dictGet g.nodes link.target).getD defaultNode)
            req).length = req.length then
        some ⟨link.link_id,
          ⟨link.source,
            projectedCoordinates ((dictGet g.nodes link.source).getD defaultNode) req⟩,
          ⟨link.target,
            projectedCoordinates ((dictGet g.nodes link.target).getD defaultNode) req⟩⟩
      else none)
      = (g.links.map Prod.snd).filterMap (fun link =>
        if (∀ d ∈ req, d ∈ ((dictGet g.nodes link.source).getD defaultNode).dim_list)
            ∧ (∀ d ∈ req, d ∈ ((dictGet g.nodes link.target).getD defaultNode).dim_list)
          then
          (some ⟨link.link_id,
            ⟨link.source, req.map (fun d =>
              (d, ((dictGet g.nodes link.source).getD defaultNode).get_coords_value d))⟩,
            ⟨link.target, req.map (fun d =>
              (d, ((dictGet g.nodes link.target).getD defaultNode).get_coords_value d))⟩⟩
            : Option ProjLink)
        else none) := by
    apply filterMap_congr
    intro link _
    by_cases hs : ∀ d ∈ req, d ∈ ((dictGet g.nodes link.source).getD defaultNode).dim_list
    · by_cases ht : ∀ d ∈ req, d ∈ ((dictGet g.nodes link.target).getD defaultNode).dim_list
      · rw [if_pos ⟨(projectedCoordinates_length_eq_iff _ req hnd).2 hs,
            (projectedCoordinates_length_eq_iff _ req hnd).2 ht⟩, if_pos ⟨hs, ht⟩,
          projectedCoordinates_of_all _ req hnd hs,
          projectedCoordinates_of_all _ req hnd ht]
      · rw [if_neg (fun hl => ht ((projectedCoordinates_length_eq_iff _ req hnd).1 hl.2)),
          if_neg (fun hl => ht hl.2)]
    · rw [if_neg (fun hl => hs ((projectedCoordinates_length_eq_iff _ req hnd).1 hl.1)),
        if_neg (fun hl => hs hl.1)]
  constructor
  · intro h
    have hc : req.all (fun dim => g.dimension_id_list.contains dim) = false := by
      by_contra hne
      exact h ((list_all_contains_iff _ _).1 (eq_true_of_ne_false hne))
    unfold Graph.project_to_dimensions
    rw [hc]
    simp
  · intro h
    have hc : req.all (fun dim => g.dimension_id_list.contains dim) = true :=
      (list_all_contains_iff _ _).2 h
    unfold Graph.project_to_dimensions
    rw [hc, if_neg (show ¬ ¬ (true = true) by simp), hnodes, hlinks]

def c9NodeA : Node := ⟨"a", ["X", "Y"], [("X", "1"), ("Y", "2")], [("X", 0), ("Y", 1)], []⟩

def c9NodeB : Node := ⟨"b", ["X"], [("X", "2")], [("X", 1)], []⟩

def c9Graph : Graph :=
  ⟨"g", ["X", "Y"], [("a", c9NodeA), ("b", c9NodeB)], [("l", ⟨"l", "a", "b", []⟩)]⟩

theorem C9_projection_witness :
    c9Graph.project_to_dimensions ["Z"]
      = .error "Some dimensions in the input list are not part of the graph's dimensions."
    ∧ c9Graph.project_to_dimensions ["Y"]
      = .ok ⟨[⟨"a", [("Y", some 1)]⟩], []⟩ := by
  constructor
  · exact (C9_projection c9Graph ["Z"] (by decide)).1 (by decide)
  · rw [(C9_projection c9Graph ["Y"] (by decide)).2 (by decide)]
    rfl

/-- The endpoint-existence invariant: every stored link's source and
target ids are keys of the node store. -/
def LinkEndpointsOk (g : Graph) : Prop :=
  ∀ p ∈ g.links, p.2.source ∈ dictKeys g.nodes ∧ p.2.target ∈ dictKeys g.nodes

theorem dictSet_entries_sub {α : Type} (d : List (String × α)) (k : String) (v : α) :
    ∀ e ∈ dictSet d k v, e ∈ d ∨ e = (k, v) := by
  induction d with
  | nil => intro e he; simp [dictSet] at he; exact Or.inr he
  | cons p rest ih =>
    intro e he
    by_cases hpk : p.1 = k
    · rw [show dictSet (p :: rest) k v = (k, v) :: rest from by
        simp [dictSet, beq_iff_eq.2 hpk]] at he
      rcases List.mem_cons.1 he with rfl | hm
      · exact Or.inr rfl
      · exact Or.inl (List.mem_cons_of_mem _ hm)
    · rw [show dictSet (p :: rest) k v = p :: dictSet rest k v from by
        simp [dictSet, beq_eq_false_iff_ne.2 hpk]] at he
      rcases List.mem_cons.1 he with rfl | hm
      · exact Or.inl (List.mem_cons_self _ _)
      · rcases ih e hm with h | h
        · exact Or.inl (List.mem_cons_of_mem _ h)
        · exact Or.inr h

theorem add_node_preserves (net : HighDimNetwork) (a : String) (b : List String)
    (c : List (String × String)) (d : List (String × Int)) (e : List (String × PyVal))
    (h : LinkEndpointsOk net.graph) :
    LinkEndpointsOk (net.add_node a b c d e).1.graph := by
  unfold HighDimNetwork.add_node
  cases hmk : mkNode a b c d e with
  | error msg => exact h
  | ok n =>
    unfold Graph.add_node
    by_cases hhas : dictHas net.graph.nodes n.node_id = true
    · simp only [hhas, if_true]
      exact h
    · have hhas' : dictHas net.graph.nodes n.node_id = false := by
        cases hb : dictHas net.graph.nodes n.node_id
        · rfl
        · exact absurd hb hhas
      simp only [hhas', Bool.false_eq_true, if_false]
      intro p hp
      obtain ⟨h1, h2⟩ := h p hp
      constructor
      · exact (mem_keys_dictSet _ _ _ _).2 (Or.inr h1)
      · exact (mem_keys_dictSet _ _ _ _).2 (Or.inr h2)

theorem add_link_preserves (net : HighDimNetwork) (s t : String) (lid : Option String)
    (attrs : List (String × PyVal)) (h : LinkEndpointsOk net.graph) :
    LinkEndpointsOk (net.add_link s t lid attrs).1.graph
    ∧ (net.add_link s t lid attrs).1.graph.nodes = net.graph.nodes := by
  by_cases hok : (dictHas net.graph.nodes s && dictHas net.graph.nodes t) = true
  · have heq : net.add_link s t lid attrs
        = ({ net with graph := { net.graph with
            links := dictSet net.graph.links (lid.getD (s ++ "_" ++ t))
              ⟨lid.getD (s ++ "_" ++ t), s, t, attrs⟩ } }, none) := by
      simp [HighDimNetwork.add_link, Graph.add_link, hok]
    rw [heq]
    obtain ⟨hs, ht⟩ := Bool.and_eq_true_iff.1 hok
    refine ⟨?_, rfl⟩
    intro p hp
    rcases dictSet_entries_sub _ _ _ p hp with hm | he
    · exact h p hm
    · rw [he]
      exact ⟨(dictHas_iff_mem_keys _ _).1 hs, (dictHas_iff_mem_keys _ _).1 ht⟩
  · have hok' : (dictHas net.graph.nodes s && dictHas net.graph.nodes t) = false := by
      cases hb : (dictHas net.graph.nodes s && dictHas net.graph.nodes t)
      · rfl
      · exact absurd hb hok
    have heq : net.add_link s t lid attrs
        = (net, some "Both source and target nodes must exist in the graph.") := by
      simp [HighDimNetwork.add_link, Graph.add_link, hok']
    rw [heq]
    exact ⟨h, rfl⟩

theorem remove_link_eq_has (net : HighDimNetwork) (lid : String)
    (hhas : dictHas net.graph.links lid = true) :
    net.remove_link lid = ({ net with
      graph := { net.graph with links := dictErase net.graph.links lid },
      link_mapping := dictErase net.link_mapping lid }, none) := by
  simp [HighDimNetwork.remove_link, hhas]

theorem remove_link_eq_not_has (net : HighDimNetwork) (lid : String)
    (hhas : dictHas net.graph.links lid = false) :
    net.remove_link lid = (net, some "Link does not exist in the graph.") := by
  simp [HighDimNetwork.remove_link, hhas]

theorem remove_link_preserves (net : HighDimNetwork) (lid : String)
    (h : LinkEndpointsOk net.graph) :
    LinkEndpointsOk (net.remove_link lid).1.graph
    ∧ (net.remove_link lid).1.graph.nodes = net.graph.nodes := by
  by_cases hhas : dictHas net.graph.links lid = true
  · rw [remove_link_eq_has net lid hhas]
    refine ⟨?_, rfl⟩
    intro p hp
    exact h p (List.mem_filter.1 hp).1
  · have hhas' : dictHas net.graph.links lid = false := by
      cases hb : dictHas net.graph.links lid
      · rfl
      · exact absurd hb hhas
    rw [remove_link_eq_not_has net lid hhas']
    exact ⟨h, rfl⟩

theorem removeLinksLoop_cons_has (net : HighDimNetwork) (lid : String) (rest : List String)
    (hhas : dictHas net.graph.links lid = true) :
    removeLinksLoop net (lid :: rest) = removeLinksLoop ({ net with
      graph := { net.graph with links := dictErase net.graph.links lid },
      link_mapping := dictErase net.link_mapping lid }) rest := by
  show (match net.remove_link lid with
    | (net', none) => removeLinksLoop net' rest
    | (net', some e) => (net', some e)) = _
  rw [remove_link_eq_has net lid hhas]

theorem removeLinksLoop_cons_not_has (net : HighDimNetwork) (lid : String)
    (rest : List String) (hhas : dictHas net.graph.links lid = false) :
    removeLinksLoop net (lid :: rest) = (net, some "Link does not exist in the graph.") := by
  show (match net.remove_link lid with
    | (net', none) => removeLinksLoop net' rest
    | (net', some e) => (net', some e)) = _
  rw [remove_link_eq_not_has net lid hhas]

theorem removeLinksLoop_subset : ∀ (ids : List String) (net : HighDimNetwork),
    (removeLinksLoop net ids).1.graph.nodes = net.graph.nodes
    ∧ ∀ p ∈ (removeLinksLoop net ids).1.graph.links, p ∈ net.graph.links := by
  intro ids
  induction ids with
  | nil => intro net; exact ⟨rfl, fun p hp => hp⟩
  | cons lid rest ih =>
    intro net
    by_cases hhas : dictHas net.graph.links lid = true
    · rw [removeLinksLoop_cons_has net lid rest hhas]
      obtain ⟨h1, h2⟩ := ih ({ net with
        graph := { net.graph with links := dictErase net.graph.links lid },
        link_mapping := dictErase net.link_mapping lid })
      refine ⟨h1, ?_⟩
      intro p hp
      exact (List.mem_filter.1 (h2 p hp)).1
    · have hhas' : dictHas net.graph.links lid = false := by
        cases hb : dictHas net.graph.links lid
        · rfl
        · exact absurd hb hhas
      rw [removeLinksLoop_cons_not_has net lid rest hhas']
      exact ⟨rfl, fun p hp => hp⟩

theorem removeLinksLoop_none_keys : ∀ (ids : List String) (net : HighDimNetwork),
    (removeLinksLoop net ids).2 = none →
    ∀ p ∈ (removeLinksLoop net ids).1.graph.links, p ∈ net.graph.links ∧ p.1 ∉ ids := by
  intro ids
  induction ids with
  | nil => intro net _ p hp; exact ⟨hp, List.not_mem_nil _⟩
  | cons lid rest ih =>
    intro net hnone p hp
    by_cases hhas : dictHas net.graph.links lid = true
    · rw [removeLinksLoop_cons_has net lid rest hhas] at hnone hp
      obtain ⟨hm, hnr⟩ := ih ({ net with
        graph := { net.graph with links := dictErase net.graph.links lid },
        link_mapping := dictErase net.link_mapping lid }) hnone p hp
      obtain ⟨hml, hne⟩ := List.mem_filter.1 hm
      refine ⟨hml, ?_⟩
      intro hin
      rcases List.mem_cons.1 hin with he | hr
      · rw [he] at hne
        simp at hne
      · exact hnr hr
    · have hhas' : dictHas net.graph.links lid = false := by
        cases hb : dictHas net.graph.links lid
        · rfl
        · exact absurd hb hhas
      rw [removeLinksLoop_cons_not_has net lid rest hhas'] at hnone
      exact absurd hnone (by simp)

theorem remove_node_preserves (net : HighDimNetwork) (nid : String)
    (h : LinkEndpointsOk net.graph) :
    LinkEndpointsOk (net.remove_node nid).1.graph := by
  by_cases hhas : dictHas net.graph.nodes nid = true
  · rcases hloop : removeLinksLoop net ((net.graph.links.filter
        (fun p => p.2.source == nid || p.2.target == nid)).map Prod.fst)
      with ⟨net1, err⟩
    have hsub := removeLinksLoop_subset ((net.graph.links.filter
      (fun p => p.2.source == nid || p.2.target == nid)).map Prod.fst) net
    rw [hloop] at hsub
    have hn1 : net1.graph.nodes = net.graph.nodes := hsub.1
    have hl1 : ∀ p ∈ net1.graph.links, p ∈ net.graph.links := hsub.2
    cases err with
    | some e =>
      have heq : net.remove_node nid = (net1, some e) := by
        simp only [HighDimNetwork.remove_node, hhas, if_true, hloop]
      rw [heq]
      intro p hp
      obtain ⟨h1, h2⟩ := h p (hl1 p hp)
      rw [show (net1, some e).1.graph.nodes = net.graph.nodes from hn1]
      exact ⟨h1, h2⟩
    | none =>
      have heq : net.remove_node nid = ({ net1 with
          graph := { net1.graph with nodes := dictErase net1.graph.nodes nid },
          node_mapping := dictErase net1.node_mapping nid }, none) := by
        simp only [HighDimNetwork.remove_node, hhas, if_true, hloop]
      rw [heq]
      have hkeys := removeLinksLoop_none_keys ((net.graph.links.filter
        (fun p => p.2.source == nid || p.2.target == nid)).map Prod.fst) net
      rw [hloop] at hkeys
      intro p hp
      obtain ⟨hml, hnotin⟩ := hkeys rfl p hp
      have hnt : ¬ (p.2.source = nid ∨ p.2.target = nid) := by
        intro htouch
        apply hnotin
        refine List.mem_map.2 ⟨p, List.mem_filter.2 ⟨hml, ?_⟩, rfl⟩
        rcases htouch with ht | ht <;> simp [ht]
      obtain ⟨h1, h2⟩ := h p hml
      exact ⟨(mem_keys_dictErase _ _ _).2 ⟨hn1.symm ▸ h1, fun he => hnt (Or.inl he)⟩,
        (mem_keys_dictErase _ _ _).2 ⟨hn1.symm ▸ h2, fun he => hnt (Or.inr he)⟩⟩
  · have hhas' : dictHas net.graph.nodes nid = false := by
      cases hb : dictHas net.graph.nodes nid
      · rfl
      · exact absurd hb hhas
    have heq : net.remove_node nid = (net, some "Node does not exist in the graph.") := by
      simp [HighDimNetwork.remove_node, hhas']
    rw [heq]
    exact h

theorem construct_nodes_loop_preserves : ∀ (combos : List (List String))
    (net : HighDimNetwork) (dl : List String), LinkEndpointsOk net.graph →
    LinkEndpointsOk (construct_nodes_loop net dl combos).1.graph := by
  intro combos
  induction combos with
  | nil => intro net dl h; exact h
  | cons c rest ih =>
    intro net dl h
    simp only [construct_nodes_loop]
    cases hco : coordsOfCombination (net.dimension_list.zip c) with
    | error msg => exact h
    | ok cs =>
      rcases hadd : net.add_node (joinUnderscore c) dl (dictOfPairs (dl.zip c))
          (dictOfPairs cs)
          [("node_type", PyVal.str "default"), ("dimension_count", PyVal.int dl.length)]
        with ⟨net', err⟩
      have hp := add_node_preserves net (joinUnderscore c) dl (dictOfPairs (dl.zip c))
        (dictOfPairs cs)
        [("node_type", PyVal.str "default"), ("dimension_count", PyVal.int dl.length)] h
      rw [hadd] at hp
      cases err with
      | none =>
        simp only [hadd]
        exact ih net' dl hp
      | some msg =>
        simp only [hadd]
        exact hp

theorem construct_links_loop_preserves : ∀ (pairs : List (String × String))
    (net : HighDimNetwork), LinkEndpointsOk net.graph →
    LinkEndpointsOk (construct_links_loop net pairs).1.graph := by
  intro pairs
  induction pairs with
  | nil => intro net h; exact h
  | cons pr rest ih =>
    intro net h
    obtain ⟨s, t⟩ := pr
    simp only [construct_links_loop]
    by_cases hst : (s == t) = true
    · simp only [hst, if_true]
      exact ih net h
    · simp only [Bool.not_eq_true] at hst
      simp only [hst, Bool.false_eq_true, if_false]
      by_cases hval : net.rule_manager.validate_link net.dimension_id_list
          (((dictGet net.graph.nodes s).getD defaultNode).dim_values_dic)
          (((dictGet net.graph.nodes t).getD defaultNode).dim_values_dic) = true
      · simp only [hval, if_true]
        rcases hadd : net.add_link s t none [] with ⟨net', err⟩
        have hp := add_link_preserves net s t none [] h
        rw [hadd] at hp
        cases err with
        | none =>
          simp only [hadd]
          exact ih net' hp.1
        | some msg =>
          simp only [hadd]
          exact hp.1
      · simp only [Bool.not_eq_true] at hval
        simp only [hval, Bool.false_eq_true, if_false]
        exact ih net h

theorem construct_nodes_preserves (net : HighDimNetwork) (h : LinkEndpointsOk net.graph) :
    LinkEndpointsOk net.construct_nodes.1.graph :=
  construct_nodes_loop_preserves _ net _ h

theorem construct_links_preserves (net : HighDimNetwork) (h : LinkEndpointsOk net.graph) :
    LinkEndpointsOk net.construct_links.1.graph :=
  construct_links_loop_preserves _ net h

theorem construct_network_preserves (net : HighDimNetwork) (h : LinkEndpointsOk net.graph) :
    LinkEndpointsOk net.construct_network.1.graph := by
  unfold HighDimNetwork.construct_network
  rcases hn : net.construct_nodes with ⟨net1, err⟩
  have h1 : LinkEndpointsOk net1.graph := by
    have := construct_nodes_preserves net h
    rw [hn] at this
    exact this
  cases err with
  | some msg => exact h1
  | none => exact construct_links_preserves net1 h1

theorem mkHighDimNetwork_ok (network_id : String) (dims : List Dimension)
    (rm : NetworkRuleManager) :
    LinkEndpointsOk (mkHighDimNetwork network_id dims rm).graph := by
  intro p hp
  exact absurd hp (List.not_mem_nil _)

/-- The network states reachable through the public operations:
construction of a fresh network, node/link addition, node/link removal,
node enumeration, link enumeration, and merge. Every operation's result
state is included whether it returned normally or raised. -/
inductive Reachable : HighDimNetwork → Prop where
  | init (network_id : String) (dims : List Dimension) (rm : NetworkRuleManager) :
      Reachable (mkHighDimNetwork network_id dims rm)
  | add_node (net : HighDimNetwork) (a : String) (b : List String)
      (c : List (String × String)) (d : List (String × Int)) (e : List (String × PyVal))
      (h : Reachable net) : Reachable (net.add_node a b c d e).1
  | add_link (net : HighDimNetwork) (s t : String) (lid : Option String)
      (attrs : List (String × PyVal)) (h : Reachable net) :
      Reachable (net.add_link s t lid attrs).1
  | remove_node (net : HighDimNetwork) (nid : String) (h : Reachable net) :
      Reachable (net.remove_node nid).1
  | remove_link (net : HighDimNetwork) (lid : String) (h : Reachable net) :
      Reachable (net.remove_link lid).1
  | construct_nodes (net : HighDimNetwork) (h : Reachable net) :
      Reachable net.construct_nodes.1
  | construct_links (net : HighDimNetwork) (h : Reachable net) :
      Reachable net.construct_links.1
  | construct_network (net : HighDimNetwork) (h : Reachable net) :
      Reachable net.construct_network.1
  | merge (a b : HighDimNetwork) (dims : List String) (net' : HighDimNetwork)
      (e : Option String) (ha : Reachable a) (hb : Reachable b)
      (h : a.merge_networks b dims = .ok (net', e)) : Reachable net'

/-- C8: in every network state reachable through the public operations,
every stored link's source and target ids are keys of the node store —
the endpoint-existence invariant is established at insertion and
preserved by every mutation. -/
theorem C8_link_endpoints_invariant (net : HighDimNetwork) (h : Reachable net) :
    LinkEndpointsOk net.graph := by
  induction h with
  | init network_id dims rm => exact mkHighDimNetwork_ok network_id dims rm
  | add_node net a b c d e _ ih => exact add_node_preserves net a b c d e ih
  | add_link net s t lid attrs _ ih => exact (add_link_preserves net s t lid attrs ih).1
  | remove_node net nid _ ih => exact remove_node_preserves net nid ih
  | remove_link net lid _ ih => exact (remove_link_preserves net lid ih).1
  | construct_nodes net _ ih => exact construct_nodes_preserves net ih
  | construct_links net _ ih => exact construct_links_preserves net ih
  | construct_network net _ ih => exact construct_network_preserves net ih
  | merge a b dims net' e _ _ hm iha ihb =>
    unfold HighDimNetwork.merge_networks at hm
    by_cases hsh : (dims.filter
        (fun dim => a.dimension_id_list.contains dim
          && b.dimension_id_list.contains dim)).isEmpty = true
    · rw [if_pos hsh] at hm
      exact absurd hm (by simp)
    · rw [if_neg hsh] at hm
      have hnet' : net' = (HighDimNetwork.construct_network (mkHighDimNetwork
          (a.network_id ++ "_" ++ b.network_id)
          (mergedDimensionList a.dimension_list b.dimension_list)
          (combinedRuleManager a b))).1 :=
        congrArg Prod.fst (Except.ok.inj hm).symm
      rw [hnet']
      exact construct_network_preserves _ (mkHighDimNetwork_ok _ _ _)

def w8Net : HighDimNetwork := mkHighDimNetwork "w8" [] ⟨"m", []⟩

theorem C8_link_endpoints_invariant_witness :
    LinkEndpointsOk (((w8Net.add_node "a" [] [] [] []).1.add_link "a" "a" none []).1.graph) :=
  C8_link_endpoints_invariant _
    (Reachable.add_link _ "a" "a" none []
      (Reachable.add_node _ "a" [] [] [] [] (Reachable.init "w8" [] ⟨"m", []⟩)))
